import Mathlib

/-!
Shallow embedding of the pseudo-XML report markup parser, quality heuristic,
fallback template generator and document renderer from
`src/agents/report_generator.py`, together with proofs about them.

Python strings are modelled as lists of characters; the handful of regular
expressions in the source (all of the shape `literal(.*?)literal`, possibly
with `re.IGNORECASE`, plus a few fixed literal patterns) are modelled by
dedicated leftmost-search functions whose semantics are spelled out at each
definition.
-/

set_option maxRecDepth 2000

namespace ReportGen

/-- Strings are modelled as lists of characters. -/
abbrev Str := List Char

/-- Coerce a Lean string literal to the character-list model. -/
def str (s : String) : Str := s.data

/-- Whitespace characters recognised by Python str.strip and by regex \s (ASCII range). -/
def isPySpace (c : Char) : Bool :=
  c == ' ' || c == '\t' || c == '\n' || c == '\r' || c == Char.ofNat 11 || c == Char.ofNat 12

/-- Python str.strip: drop leading and trailing whitespace. -/
def strip (s : Str) : Str :=
  ((s.dropWhile isPySpace).reverse.dropWhile isPySpace).reverse

/-- Character comparison used by re.IGNORECASE literal matching. -/
def charCI (a b : Char) : Bool := a.toLower == b.toLower

/-- Exact character comparison (case-sensitive matching, Python `in`, str.replace). -/
def charCS (a b : Char) : Bool := a == b

/-- Does pattern `p` match at the start of `s`, comparing characters with `eqc`? -/
def isPreBy (eqc : Char → Char → Bool) : Str → Str → Bool
  | [], _ => true
  | _ :: _, [] => false
  | p :: pt, c :: ct => eqc p c && isPreBy eqc pt ct

/-- Leftmost occurrence of pattern `p` in `s` under comparison `eqc`: the text
before the occurrence and the text after it, or `none` when `p` never occurs. -/
def splitFirstBy (eqc : Char → Char → Bool) (p : Str) : Str → Option (Str × Str)
  | [] => if isPreBy eqc p [] then some ([], []) else none
  | c :: rest =>
    if isPreBy eqc p (c :: rest) then some ([], (c :: rest).drop p.length)
    else (splitFirstBy eqc p rest).map (fun pr => (c :: pr.1, pr.2))

/-- Python `p in s` (exact substring test). -/
def occursB (p s : Str) : Bool := (splitFirstBy charCS p s).isSome

theorem isPreBy_length {eqc : Char → Char → Bool} :
    ∀ {p s : Str}, isPreBy eqc p s = true → p.length ≤ s.length := by
  intro p
  induction p with
  | nil => intro s _; simp
  | cons q qt ih =>
    intro s h
    cases s with
    | nil => simp [isPreBy] at h
    | cons c ct =>
      simp only [isPreBy, Bool.and_eq_true] at h
      have := ih h.2
      simp only [List.length_cons]
      omega

theorem splitFirstBy_length_eq {eqc : Char → Char → Bool} {p : Str} :
    ∀ {s pre rest : Str}, splitFirstBy eqc p s = some (pre, rest) →
      s.length = pre.length + p.length + rest.length := by
  intro s
  induction s with
  | nil =>
    intro pre rest h
    rw [splitFirstBy] at h
    by_cases hp : isPreBy eqc p [] = true
    · have hle := isPreBy_length hp
      simp at hle
      simp [hp] at h
      simp [h.1, h.2, hle]
    · simp [hp] at h
  | cons c ct ih =>
    intro pre rest h
    rw [splitFirstBy] at h
    by_cases hp : isPreBy eqc p (c :: ct) = true
    · have hle := isPreBy_length hp
      simp [hp] at h
      have hr : rest.length = (c :: ct).length - p.length := by
        rw [← h.2]; exact List.length_drop ..
      rw [h.1]
      simp only [List.length_cons, List.length_nil] at *
      omega
    · simp only [hp, if_neg, ite_false] at h
      match h1 : splitFirstBy eqc p ct with
      | none => rw [h1] at h; simp at h
      | some (pre', rest') =>
        rw [h1] at h
        simp only [Option.map_some'] at h
        injection h with h2
        injection h2 with hpre hrest
        subst hpre
        subst hrest
        have := ih h1
        simp only [List.length_cons]
        omega

/-- Length bound used for termination: the tail after a match is strictly shorter than
the scanned text whenever the pattern is nonempty. -/
theorem splitFirstBy_lt {eqc : Char → Char → Bool} {p s pre rest : Str}
    (h : splitFirstBy eqc p s = some (pre, rest)) :
    rest.length + p.length ≤ s.length := by
  have := splitFirstBy_length_eq h
  omega

theorem length_dropWhile_le_self (p : Char → Bool) :
    ∀ l : Str, (l.dropWhile p).length ≤ l.length := by
  intro l
  induction l with
  | nil => simp
  | cons c rest ih =>
    rw [List.dropWhile]
    by_cases h : p c = true
    · simp only [h]
      simp only [List.length_cons]
      omega
    · simp [h]

/-- Recursion core of Python str.replace (for a nonempty pattern), with an explicit
step budget so that the recursion is structural and evaluates in the kernel: each
step consumes at least one input character, so a budget of the input length never
runs out. -/
def replaceAllGo (p r : Str) : Nat → Str → Str
  | _, [] => []
  | 0, s => s
  | fuel + 1, c :: rest =>
    if isPreBy charCS p (c :: rest) then
      r ++ replaceAllGo p r fuel ((c :: rest).drop p.length)
    else c :: replaceAllGo p r fuel rest

/-- Python str.replace: replace every non-overlapping occurrence of `p` by `r`,
scanning left to right (the replacement text is not rescanned).  All uses in the
source have a nonempty pattern; the empty pattern is treated as a no-op. -/
def replaceAll (p r s : Str) : Str :=
  if p.isEmpty then s else replaceAllGo p r s.length s

/-- Decimal digit character. -/
def digitChar (d : Nat) : Char := Char.ofNat (48 + d)

/-- Recursion core of decimal rendering, with a step budget bounding the number of
digits (each step divides by ten). -/
def natStrAux : Nat → Nat → Str
  | 0, _ => []
  | fuel + 1, n =>
    if n < 10 then [digitChar n]
    else natStrAux fuel (n / 10) ++ [digitChar (n % 10)]

/-- Decimal rendering of a natural number, as produced by Python str(n). -/
def natStr (n : Nat) : Str := natStrAux (n + 1) n

/-- Python s[-n:]: the last `n` characters (the whole string when it is shorter). -/
def lastN (n : Nat) (s : Str) : Str := s.drop (s.length - n)

/-- Matcher for the closing bracket part of the tag regex: the fragment [^>]*> . -/
def tagTail : Str → Bool
  | [] => false
  | c :: rest => if c == '>' then true else tagTail rest

/-- Does the regex <[^>]+> match at the start of the string?  The first character
must be the opening bracket, the second a non-bracket (the class needs at least one
character), and a closing bracket must follow. -/
def isTagAt : Str → Bool
  | a :: b :: rest => a == '<' && !(b == '>') && tagTail rest
  | _ => false

/-- re.search(r'<[^>]+>', s): the suffix of `s` beginning at the leftmost tag, if any
(parse_xml_tags keeps exactly this suffix, line 65). -/
def dropToTag : Str → Option Str
  | [] => none
  | c :: rest => if isTagAt (c :: rest) then some (c :: rest) else dropToTag rest

/-- Does the text contain any angle-bracket tag? -/
def hasTag (s : Str) : Bool := (dropToTag s).isSome

/-- First match of the non-greedy pair pattern open(.*?)close (comparison `eqc`,
DOTALL): the group text.  A lazy leftmost match pairs the first occurrence of the
opening literal with the first occurrence of the closing literal after it; if no
closing literal follows the first opening one, none follows any later one either,
so the whole search fails. -/
def firstPairMatch (eqc : Char → Char → Bool) (o c s : Str) : Option Str :=
  match splitFirstBy eqc o s with
  | none => none
  | some (_, r0) =>
    match splitFirstBy eqc c r0 with
    | none => none
    | some (body, _) => some body

/-- Recursion core of the per-tag finditer scan, with a step budget: each match
consumes at least the two literals, so a budget of the input length plus one never
runs out. -/
def scanPairsGo (o c : Str) : Nat → Str → Nat → List (Nat × Str)
  | 0, _, _ => []
  | fuel + 1, s, base =>
    match splitFirstBy charCI o s with
    | none => []
    | some (pre, r0) =>
      match splitFirstBy charCI c r0 with
      | none => []
      | some (body, r1) =>
        (base + pre.length, body) ::
          scanPairsGo o c fuel r1 (base + pre.length + o.length + body.length + c.length)

/-- One scan of re.finditer(r'<t>(.*?)</t>', s, DOTALL | IGNORECASE): all
non-overlapping lazy matches with their start offsets (`base` accumulates the
offset consumed so far).  Matches resume after the closing literal. -/
def scanPairs (o c : Str) (s : Str) (base : Nat) : List (Nat × Str) :=
  if o.isEmpty || c.isEmpty then [] else scanPairsGo o c (s.length + 1) s base

/-- Literal fragments of the citation regex (line 131). -/
def openNameTag : Str := str "<citation_name>"

def closeNameOpenUrlTag : Str := str "</citation_name><citation_url>"

def closeUrlTag : Str := str "</citation_url>"

theorem openNameTag_len : openNameTag.length = 15 := rfl

theorem closeNameOpenUrlTag_len : closeNameOpenUrlTag.length = 30 := rfl

theorem closeUrlTag_len : closeUrlTag.length = 15 := rfl

/-- Recursion core of the citation finditer, with a step budget. -/
def citMatchesGo : Nat → Str → List (Str × Str)
  | 0, _ => []
  | fuel + 1, s =>
    match splitFirstBy charCS openNameTag s with
    | none => []
    | some (_, r0) =>
      match splitFirstBy charCS closeNameOpenUrlTag r0 with
      | none => []
      | some (g1, r1) =>
        match splitFirstBy charCS closeUrlTag r1 with
        | none => []
        | some (g2, rest) => (g1, g2) :: citMatchesGo fuel rest

/-- re.finditer of the citation pattern
citation_name-open (.*?) citation_name-close citation_url-open (.*?) citation_url-close
(DOTALL, case-sensitive): the list of (group1, group2) in match order.  The lazy
groups stop at the first occurrence of the following literal; when one of the
literals is missing after the first opening tag it is also missing after every
later one, so the whole scan stops, matching the regex engine. -/
def citMatches (s : Str) : List (Str × Str) := citMatchesGo (s.length + 1) s

/-- Recursion core of the pair-substitution, with a step budget. -/
def subPairsGo (o c replBefore replAfter : Str) : Nat → Str → Str
  | 0, s => s
  | fuel + 1, s =>
    match splitFirstBy charCI o s with
    | none => s
    | some (a, r0) =>
      match splitFirstBy charCI c r0 with
      | none => s
      | some (body, r1) =>
        a ++ replBefore ++ body ++ replAfter ++ subPairsGo o c replBefore replAfter fuel r1

/-- re.sub(r'open(.*?)close', replBefore + group + replAfter, s, DOTALL | IGNORECASE):
every non-overlapping lazy match is rewritten, scanning left to right.  All uses
have nonempty literals; empty ones are treated as a no-op. -/
def subPairs (o c replBefore replAfter : Str) (s : Str) : Str :=
  if o.isEmpty || c.isEmpty then s else subPairsGo o c replBefore replAfter (s.length + 1) s

/-- Number-list literals (line 191). -/
def openNumberTag : Str := str "<number>"

def closeNumberTag : Str := str "</number>"

/-- Recursion core of the numbered-item substitution, with a step budget. -/
def subNumberAllGo : Nat → Str → Nat → Str
  | 0, s, _ => s
  | fuel + 1, s, ctr =>
    match splitFirstBy charCI openNumberTag s with
    | none => s
    | some (a, r0) =>
      match splitFirstBy charCI closeNumberTag r0 with
      | none => s
      | some (body, r1) =>
        a ++ natStr ctr ++ str ". " ++ body ++ subNumberAllGo fuel r1 (ctr + 1)

/-- re.sub(r'<number>(.*?)</number>', ...) where the replacement carries the
per-call counter: each match becomes "n. group" with n = 1, 2, ... restarting
at 1 on every call (the counter is a closure over a local variable). -/
def subNumberAll (s : Str) (ctr : Nat) : Str := subNumberAllGo (s.length + 1) s ctr

/-- ReportXMLParser._process_formatting_tags: the six sequential substitutions. -/
def processFormattingTags (s : Str) : Str :=
  let s1 := subPairs (str "<bold>") (str "</bold>") (str "<b>") (str "</b>") s
  let s2 := subPairs (str "<italic>") (str "</italic>") (str "<i>") (str "</i>") s1
  let s3 := subPairs (str "<underline>") (str "</underline>") (str "<u>") (str "</u>") s2
  let s4 := subPairs (str "<bullet>") (str "</bullet>") (str "• ") (str "") s3
  let s5 := subNumberAll s4 1
  subPairs (str "<list>") (str "</list>") (str "") (str "") s5

/-- One entry of parsed_content['citations'] / ['inline_citations']. -/
structure CitationInfo where
  number : Nat
  name : Str
  url : Str
  full_name : Str
deriving DecidableEq

/-- The reconstructed literal citation tag-pair used as the replacement target (line 159);
note it is rebuilt from the stripped group values. -/
def citTagText (name url : Str) : Str :=
  openNameTag ++ name ++ closeNameOpenUrlTag ++ url ++ closeUrlTag

/-- The inline clickable citation the tag-pair is replaced with (line 160). -/
def inlineCitText (ctr : Nat) (url : Str) : Str :=
  str "<link href=\"" ++ url ++ str "\"><u>[" ++ natStr ctr ++ str "]</u></link>"

/-- Citation record stored under the counter key (lines 144-153): the display name is
truncated to 50 characters plus an ellipsis, the full name is kept. -/
def mkCitationInfo (ctr : Nat) (name url : Str) : CitationInfo :=
  { number := ctr
    name := if 50 < name.length then name.take 50 ++ str "..." else name
    url := url
    full_name := name }

/-- The loop of _process_inline_citations over the precomputed match list (lines 136-163):
invalid matches (empty stripped name or url) are skipped with no replacement; valid ones
are numbered with the running counter, appended to the citation table and inline list,
and every textual occurrence of the rebuilt tag-pair is replaced at once (str.replace). -/
def processCitLoop :
    List (Str × Str) → Str → List (Nat × CitationInfo) → List CitationInfo → Nat →
    Str × List (Nat × CitationInfo) × List CitationInfo × Nat
  | [], txt, cits, inl, ctr => (txt, cits, inl, ctr)
  | (g1, g2) :: ms, txt, cits, inl, ctr =>
    let name := strip g1
    let url := strip g2
    if name.isEmpty || url.isEmpty then processCitLoop ms txt cits inl ctr
    else
      let info := mkCitationInfo ctr name url
      processCitLoop ms (replaceAll (citTagText name url) (inlineCitText ctr url) txt)
        (cits ++ [(ctr, info)]) (inl ++ [info]) (ctr + 1)

/-- ReportXMLParser._process_inline_citations: returns the processed text, the updated
citation table (modelled as the dict's insertion-ordered entry list, keyed by the
counter), the inline citation list, and the updated counter. -/
def processInlineCitations (content : Str) (cits : List (Nat × CitationInfo))
    (inl : List CitationInfo) (ctr : Nat) :
    Str × List (Nat × CitationInfo) × List CitationInfo × Nat :=
  processCitLoop (citMatches content) content cits inl ctr

/-- One parsed section of parse_xml_tags output. -/
structure Block where
  type : Str
  content : Str
deriving DecidableEq

/-- One candidate match found by the per-pattern scans, with its source offset. -/
structure RawBlock where
  pos : Nat
  type : Str
  body : Str
deriving DecidableEq

/-- The seven structural tag patterns of parse_xml_tags (lines 80-88), in source order,
as (typeName, openLiteral, closeLiteral); the type name is what the source derives
from the pattern text by stripping angle brackets. -/
def sectionPatternList : List (Str × Str × Str) :=
  [ (str "content", str "<content>", str "</content>")
  , (str "sub-heading-bold", str "<sub-heading-bold>", str "</sub-heading-bold>")
  , (str "sub-heading", str "<sub-heading>", str "</sub-heading>")
  , (str "section", str "<section>", str "</section>")
  , (str "paragraph", str "<paragraph>", str "</paragraph>")
  , (str "list", str "<list>", str "</list>")
  , (str "table", str "<table>", str "</table>") ]

/-- All candidate blocks from the independent per-pattern scans (lines 91-100). -/
def allCandidateBlocks (s : Str) : List RawBlock :=
  sectionPatternList.flatMap (fun pat =>
    (scanPairs pat.2.1 pat.2.2 s 0).map (fun m => ⟨m.1, pat.1, m.2⟩))

/-- Stable insertion for the position sort: an element is placed before every
already-sorted element with an equal or larger offset, so that scan order is the
tiebreak, as in Python's stable list.sort (line 103). -/
def insertByPos (x : RawBlock) : List RawBlock → List RawBlock
  | [] => [x]
  | y :: ys => if y.pos < x.pos then y :: insertByPos x ys else x :: y :: ys

/-- all_sections.sort(key=lambda x: x['start_pos']): stable ascending sort. -/
def sortByPos : List RawBlock → List RawBlock
  | [] => []
  | x :: xs => insertByPos x (sortByPos xs)

/-- The parse_xml_tags result dictionary. -/
structure ParsedContent where
  title : Str
  sections : List Block
  citations : List (Nat × CitationInfo)
  inline_citations : List CitationInfo
deriving DecidableEq

/-- The empty structure returned for tagless input (lines 54-69). -/
def emptyParsed : ParsedContent :=
  { title := [], sections := [], citations := [], inline_citations := [] }

/-- The per-section processing loop of parse_xml_tags (lines 107-121): citations are
resolved first, then formatting tags, threading the citation table and counter. -/
def processBlocks :
    List RawBlock → List (Nat × CitationInfo) → List CitationInfo → Nat →
    List Block × List (Nat × CitationInfo) × List CitationInfo × Nat
  | [], cits, inl, ctr => ([], cits, inl, ctr)
  | b :: bs, cits, inl, ctr =>
    let r := processInlineCitations b.body cits inl ctr
    let rest := processBlocks bs r.2.1 r.2.2.1 r.2.2.2
    (⟨b.type, processFormattingTags r.1⟩ :: rest.1, rest.2)

/-- The candidate blocks of the trimmed text, sorted by source offset. -/
def sortedBlocks (s : Str) : List RawBlock := sortByPos (allCandidateBlocks s)

/-- ReportXMLParser.parse_xml_tags (lines 51-123): strip, preamble trim at the first
angle-bracket tag (empty structure when there is none), title from the first
case-sensitive heading_bold pair, per-pattern block scan merged by offset, then
per-block citation and formatting processing with a document-wide counter starting
at 1. -/
def parse_xml_tags (raw : Str) : ParsedContent :=
  let s0 := strip raw
  match dropToTag s0 with
  | none => emptyParsed
  | some s =>
    let title :=
      match firstPairMatch charCS (str "<heading_bold>") (str "</heading_bold>") s with
      | some body => strip body
      | none => []
    let r := processBlocks (sortedBlocks s) [] [] 1
    { title := title, sections := r.1, citations := r.2.1, inline_citations := r.2.2.1 }

/-- ConsolidatedReportGenerator._is_report_incomplete_or_repetitive (lines 764-784).
The duplicate-line ratio test len(set(lines))/len(lines) < 0.7 is modelled exactly
with the rational comparison 10 * distinct < 7 * total. -/
def isReportIncompleteOrRepetitive (s : Str) : Bool :=
  if s.length < 1000 then true
  else
    let lines := s.splitOn '\n'
    if 0 < lines.length && 10 * lines.dedup.length < 7 * lines.length then true
    else if !(str "</paragraph>").isSuffixOf s && !(str "</content>").isSuffixOf s then true
    else if occursB (str "...") (lastN 500 s) || occursB (str "...") (lastN 1000 s) then true
    else false

/-- src/core/models.py CompanyProfile (only fields, all strings or string lists). -/
structure CompanyProfile where
  name : Str
  industry : Str
  business_model : Str
  company_size : Str
  technology_stack : List Str
  cloud_maturity : Str
  primary_challenges : List Str
  growth_stage : Str
  compliance_requirements : List Str
deriving DecidableEq

/-- src/core/models.py UseCaseStructured; the two int fields are used as nonnegative
quantities (months, dollars) and are modelled as Nat. -/
structure UseCaseStructured where
  title : Str
  category : Str
  current_state : Str
  proposed_solution : Str
  primary_aws_services : List Str
  business_value : Str
  implementation_phases : List Str
  timeline_months : Nat
  monthly_cost_usd : Nat
  complexity : Str
  priority : Str
  risk_level : Str
  success_metrics : List Str
deriving DecidableEq

/-- Python sep.join(list). -/
def joinSep (sep : Str) : List Str → Str
  | [] => []
  | [x] => x
  | x :: xs => x ++ sep ++ joinSep sep xs

/-- Helper for Python format spec "n:,": insert a comma after every three digits,
walking the reversed digit string. -/
def commaRevAux : Str → Nat → Str
  | [], _ => []
  | c :: rest, k =>
    if k % 3 == 0 && k != 0 then ',' :: c :: commaRevAux rest (k + 1)
    else c :: commaRevAux rest (k + 1)

/-- Python f-string format {n:,}: decimal with thousands separators. -/
def commaFmt (n : Nat) : Str := (commaRevAux (natStr n).reverse 0).reverse

/-- ConsolidatedReportGenerator._get_citation_tag (lines 892-899): empty string when
the list is empty or the index is out of range, otherwise the citation tag pair of
entry index % len.  A citation is modelled as its (name, url) pair. -/
def getCitationTag (cits : List (Str × Str)) (index : Nat) : Str :=
  if cits.isEmpty || cits.length ≤ index then []
  else
    match cits.get? (index % cits.length) with
    | none => []
    | some c =>
      str "<citation_name>" ++ c.1 ++ str "</citation_name><citation_url>" ++ c.2
        ++ str "</citation_url>"

/-- The per-section guard `self._get_citation_tag(citations, k) if citations else ""`
(lines 989-992 and the calls inside the report body). -/
def citTagOrEmpty (cits : List (Str × Str)) (index : Nat) : Str :=
  if cits.isEmpty then [] else getCitationTag cits index

/-- ConsolidatedReportGenerator._format_use_cases_as_bullet_list (lines 901-910). -/
def formatUseCasesAsBulletList (ucs : List UseCaseStructured) : Str :=
  joinSep (str "\n")
    (ucs.map (fun uc =>
      str "<bullet><bold>" ++ uc.title ++ str "</bold> - " ++ uc.category ++ str ": "
        ++ uc.business_value ++ str "</bullet>"))

/-- Python enumerate(use_cases, 1). -/
def enumFrom (i : Nat) : List UseCaseStructured → List (Nat × UseCaseStructured)
  | [] => []
  | x :: xs => (i, x) :: enumFrom (i + 1) xs

/-- One use-case section of the fallback report (the f-string at lines 994-1021),
for index i (1-based) and use case uc. -/
def useCaseSection (profile : CompanyProfile) (cits : List (Str × Str))
    (i : Nat) (uc : UseCaseStructured) : Str :=
  str "\n                <sub-heading>3." ++ natStr i ++ str ": Use Case - " ++ uc.title
    ++ str "</sub-heading>\n\n                <content><bold>Strategic Overview and Business Context</bold>: <italic>"
    ++ uc.title ++ str "</italic> represents a critical transformation initiative for "
    ++ profile.name
    ++ str ", addressing fundamental business challenges through strategic technology adoption. This initiative aligns with industry best practices for <italic>"
    ++ profile.industry ++ str "</italic> transformation " ++ citTagOrEmpty cits i
    ++ str " and positions the organization for competitive advantage.</content>\n\n                <paragraph><bold>Current State Assessment and Pain Points</bold>: "
    ++ uc.current_state
    ++ str " This situation creates <underline>operational inefficiencies</underline> and limits "
    ++ profile.name
    ++ str "\x27s ability to scale effectively. Industry analysis shows that organizations facing similar challenges experience 20-40% operational inefficiencies "
    ++ citTagOrEmpty cits (i * 2)
    ++ str ".</paragraph>\n\n                <paragraph><bold>Proposed Transformation Solution and Technical Architecture</bold>: "
    ++ uc.proposed_solution
    ++ str " This comprehensive approach leverages <italic>proven methodologies</italic> and cutting-edge technologies to deliver measurable business outcomes "
    ++ citTagOrEmpty cits (i * 3)
    ++ str ".</paragraph>\n\n                <list>\n                <bullet><bold>Technology Architecture and AWS Services</bold>: Utilizes "
    ++ joinSep (str ", ") uc.primary_aws_services
    ++ str " as core components for scalable and reliable implementation</bullet>\n                <bullet><bold>Business Value and ROI Projections</bold>: "
    ++ uc.business_value
    ++ str " with projected ROI of 200-400% within 18-24 months</bullet>\n                <bullet><bold>Implementation Strategy and Phases</bold>: "
    ++ natStr uc.timeline_months
    ++ str "-month phased approach with clear milestones and deliverables</bullet>\n                <bullet><bold>Success Metrics and KPIs</bold>: "
    ++ joinSep (str ", ") uc.success_metrics
    ++ str " providing clear performance indicators and accountability mechanisms</bullet>\n                <bullet><bold>Risk Assessment and Mitigation</bold>: "
    ++ uc.risk_level
    ++ str " risk profile with comprehensive mitigation strategies including testing, stakeholder engagement, and phased rollout</bullet>\n                <bullet><bold>Resource Requirements and Team Structure</bold>: Cross-functional team with expertise in AWS, business analysis, and change management</bullet>\n                </list>\n\n                <paragraph><bold>Implementation Roadmap and Timeline</bold>: The "
    ++ natStr uc.timeline_months
    ++ str "-month implementation follows a structured approach: "
    ++ joinSep (str ", ") uc.implementation_phases
    ++ str ". Each phase builds upon previous successes while minimizing business disruption and maximizing value realization "
    ++ citTagOrEmpty cits (i * 4)
    ++ str ".</paragraph>\n\n                <paragraph><bold>Expected Business Outcomes and Success Metrics</bold>: Success will be measured through comprehensive KPIs including "
    ++ joinSep (str ", ") uc.success_metrics
    ++ str ", providing clear performance indicators and accountability mechanisms. These metrics align with industry standards for <italic>"
    ++ profile.industry
    ++ str "</italic> transformation initiatives and enable continuous improvement throughout the implementation journey.</paragraph>\n\n                <paragraph><bold>Risk Assessment and Mitigation Strategies</bold>: With a "
    ++ uc.risk_level ++ str " risk profile and <italic>" ++ uc.complexity
    ++ str " complexity level</italic>, this initiative requires careful planning and execution. Mitigation strategies include comprehensive testing, stakeholder engagement, phased rollout approaches, continuous monitoring and adjustment, and robust fallback procedures to ensure business continuity.</paragraph>\n\n                <paragraph><bold>Resource Requirements and Team Structure</bold>: Successful implementation requires a cross-functional team with expertise in AWS services, data science, business analysis, and change management, supported by external consultants and technology partners. The team structure ensures proper governance, accountability, and knowledge transfer throughout the transformation journey.</paragraph>\n\n                <paragraph><bold>Strategic Alignment and Business Impact</bold>: This initiative directly addresses "
    ++ profile.name
    ++ str "\x27s core business challenges while building long-term competitive advantages. The transformation will create measurable business value through improved operational efficiency, enhanced customer experience, and increased market competitiveness, positioning the organization for sustained growth and success.</paragraph>\n            "

/-- The sections accumulated by the per-use-case loop (use_case_sections, line 1023). -/
def useCaseSections (profile : CompanyProfile) (cits : List (Str × Str))
    (ucs : List UseCaseStructured) : List Str :=
  (enumFrom 1 ucs).map (fun p => useCaseSection profile cits p.1 p.2)

/-- The part of the full_report f-string (lines 1026-1052) before the joined
use-case sections. -/
def fallbackReportHead (profile : CompanyProfile) (cits : List (Str × Str))
    (ucs : List UseCaseStructured) (enhancement : Str) : Str :=
  str "<heading_bold>Comprehensive GenAI Transformation Strategy for " ++ profile.name
    ++ enhancement
    ++ str "</heading_bold>\n\n                <content>The convergence of <bold>"
    ++ profile.name
    ++ str "\x27s</bold> comprehensive operations and rapidly advancing GenAI technologies presents a transformational opportunity to revolutionize their position in the <italic>"
    ++ profile.industry
    ++ str "</italic> sector. With organizations achieving <bold>15-65% improvements</bold> in key metrics through GenAI implementations "
    ++ getCitationTag cits 0 ++ str ", " ++ profile.name
    ++ str "\x27s strong foundation creates ideal conditions for high-impact AI adoption.</content>\n\n                <sub-heading-bold>Section 1: Strategic Context and Business Position</sub-heading-bold>\n\n                <content><bold>"
    ++ profile.name
    ++ str "</bold> operates as a premier organization in the <italic>" ++ profile.industry
    ++ str "</italic> sector, with significant opportunities for technology-enabled transformation "
    ++ getCitationTag cits 1
    ++ str ". Their established market presence and operational expertise provide the foundation necessary for comprehensive GenAI deployment.</content>\n\n                <sub-heading>1.1: Market Dynamics and Transformation Imperative</sub-heading>\n\n                <content>The <italic>"
    ++ profile.industry
    ++ str "</italic> sector faces accelerating digital pressure that GenAI can uniquely address. Market volatility creates operational challenges throughout value chains "
    ++ getCitationTag cits 2
    ++ str ", while technology infrastructure complexities strain traditional operational methods. Industry research indicates that early adopters of AI technologies gain significant competitive advantages "
    ++ getCitationTag cits 3
    ++ str ".</content>\n\n                <sub-heading-bold>Section 2: Comprehensive Use Case Portfolio Analysis</sub-heading-bold>\n\n                <content>Our analysis has identified <bold>"
    ++ natStr ucs.length
    ++ str " strategic transformation initiatives</bold> specifically designed for "
    ++ profile.name
    ++ str "\x27s operational context. Each use case addresses core business challenges while building capabilities for sustained competitive advantage "
    ++ getCitationTag cits 4
    ++ str ". These initiatives are based on industry best practices and proven transformation methodologies "
    ++ getCitationTag cits 5
    ++ str ".</content>\n\n                <sub-heading>2.1: Identified Use Cases Overview</sub-heading>\n\n                <content>Our comprehensive analysis has identified the following strategic transformation opportunities:</content>\n\n                <list>\n                "
    ++ formatUseCasesAsBulletList ucs
    ++ str "\n                </list>\n\n                <sub-heading-bold>Section 3: Detailed Use Case Analysis</sub-heading-bold>\n\n                "

/-- The part of the full_report f-string (lines 1054-1139) after the joined
use-case sections. -/
def fallbackReportTail (profile : CompanyProfile) (cits : List (Str × Str))
    (ucs : List UseCaseStructured) : Str :=
  str "\n\n                <sub-heading-bold>Section 4: Implementation Roadmap and Strategic Recommendations</sub-heading-bold>\n\n                <content><bold>Success requires disciplined execution</bold> focusing on quick wins while building capabilities for transformational applications. The phased approach minimizes business disruption while maximizing value creation "
    ++ getCitationTag cits 10
    ++ str ". Industry research demonstrates that organizations following structured implementation methodologies achieve 40-60% better outcomes "
    ++ getCitationTag cits 11
    ++ str ".</content>\n\n                <sub-heading>4.1: Priority Implementation Sequence</sub-heading>\n\n                <list>\n                <bullet><bold>Phase 1</bold>: Foundation and Quick Wins (Months 1-3) — establish baseline capabilities, pilot key initiatives, and validate success metrics.</bullet>\n                <bullet><bold>Phase 2</bold>: Core Transformation Initiatives (Months 4-9) — integrate use cases into enterprise systems, scale pilots, and expand adoption programs.</bullet>\n                <bullet><bold>Phase 3</bold>: Advanced Capabilities (Months 10-15) — embed predictive and automation capabilities, strengthen governance, and ensure resilience.</bullet>\n                <bullet><bold>Phase 4</bold>: Innovation and Optimization (Months 16-18) — drive continuous improvement, adopt emerging technologies, and explore adjacent opportunities.</bullet>\n                </list>\n\n                <sub-heading>4.2: Resource Requirements</sub-heading>\n                <list>\n                <bullet><bold>Leadership</bold>: Dedicated transformation sponsors to ensure accountability.</bullet>\n                <bullet><bold>Technical Experts</bold>: Specialists in automation, data engineering, and AI model operations.</bullet>\n                <bullet><bold>Business Analysts</bold>: Domain experts aligning solutions with business priorities.</bullet>\n                <bullet><bold>Change Management</bold>: Specialists to lead adoption, training, and communication.</bullet>\n                <bullet><bold>Governance</bold>: Risk, compliance, and audit professionals ensuring adherence.</bullet>\n                </list>\n\n                <sub-heading>4.3: Enablers</sub-heading>\n                <list>\n                <bullet><bold>Training</bold>: Role-specific upskilling for executives, analysts, and operators.</bullet>\n                <bullet><bold>Data Foundations</bold>: Reliable cataloging, lineage, and quality pipelines.</bullet>\n                <bullet><bold>Security</bold>: Policies for identity, encryption, and access management.</bullet>\n                <bullet><bold>Governance Structures</bold>: Steering committee and risk review cadence.</bullet>\n                </list>\n\n                <sub-heading-bold>Section 5: Financial Analysis and ROI Projections</sub-heading-bold>\n\n                <content>Comprehensive financial modeling demonstrates strong ROI potential across initiatives. Based on benchmarks, "
    ++ profile.name
    ++ str " can achieve significant returns within 18-24 months.</content>\n\n                <sub-heading>5.1: Investment Requirements</sub-heading>\n                <paragraph><bold>Total Investment</bold>: Approximately <underline>$"
    ++ commaFmt ((ucs.map (fun uc => uc.monthly_cost_usd * uc.timeline_months)).sum)
    ++ str "</underline> over the implementation period, spanning technology, infrastructure, training, and change management.</paragraph>\n\n                <sub-heading>5.2: Expected Returns</sub-heading>\n                <list>\n                <bullet><bold>Efficiency</bold>: 25-45% improvements in throughput and productivity.</bullet>\n                <bullet><bold>Cost Reduction</bold>: 20-35% savings from reduced rework and overhead.</bullet>\n                <bullet><bold>Revenue Growth</bold>: 15-30% uplift from faster delivery and enhanced experience.</bullet>\n                <bullet><bold>Risk Mitigation</bold>: Reduction in penalties, delays, and compliance failures.</bullet>\n                </list>\n    \n                <paragraph><bold>Payback Period</bold>: ROI within 12-18 months, full payback within 24-30 months.</paragraph>\n\n                <sub-heading>5.3: Sensitivity Analysis</sub-heading>\n                <paragraph>Returns modeled under conservative, base, and aggressive adoption scenarios confirm robust performance across varying adoption levels.</paragraph>\n\n                <sub-heading-bold>Section 6: Success Metrics and Performance Monitoring</sub-heading-bold>\n\n                <content>A robust performance framework ensures transparency, accountability, and continuous improvement throughout the transformation journey.</content>\n\n                <list>\n                <bullet><bold>Operational Metrics</bold>: Processing time, throughput per employee, and error rates.</bullet>\n                <bullet><bold>Customer Metrics</bold>: NPS, satisfaction surveys, and retention rates.</bullet>\n                <bullet><bold>Financial Metrics</bold>: ROI realized, cost savings, and incremental revenue.</bullet>\n                <bullet><bold>Technology Metrics</bold>: Uptime, latency, adoption rates, and scalability.</bullet>\n                <bullet><bold>Governance Metrics</bold>: Compliance adherence, audit readiness, and policy exceptions.</bullet>\n                </list>\n\n                <sub-heading>6.1: Monitoring Framework</sub-heading>\n                <paragraph>Dashboards with drill-down capabilities will track performance by function and region. Quarterly executive steering reviews and monthly operational reviews will ensure alignment with objectives.</paragraph>\n\n                <sub-heading>6.2: Feedback Loops</sub-heading>\n                <paragraph>Embed continuous feedback from users and stakeholders, with iterative updates each quarter to refine adoption and performance.</paragraph>\n\n                <sub-heading-bold>Section 7: Conclusion and Strategic Imperatives</sub-heading-bold>\n\n                <content><bold>"
    ++ profile.name
    ++ str "\x27s readiness</bold>, combined with favorable market dynamics and strong technology maturity, create an ideal environment for GenAI transformation "
    ++ getCitationTag cits 12
    ++ str ". Early adoption ensures outsized competitive advantages "
    ++ getCitationTag cits 13
    ++ str ".</content>\n\n                <list>\n                <bullet><bold>Leadership Commitment</bold>: Sponsorship and alignment from the top.</bullet>\n                <bullet><bold>Change Adoption</bold>: User training, communication, and engagement plans.</bullet>\n                <bullet><bold>Governance</bold>: Clear accountability, transparency, and risk oversight.</bullet>\n                <bullet><bold>Scalability</bold>: Flexible frameworks supporting cross-enterprise expansion.</bullet>\n                <bullet><bold>Continuous Improvement</bold>: Iterative cycles ensuring resilience and relevance.</bullet>\n                </list>\n\n                <paragraph><bold>Next Steps</bold>: Begin Phase 1 activities including stakeholder alignment, program chartering, pilot launch, and initial governance setup.</paragraph>\n\n                <paragraph><bold>30–60 Day Horizon</bold>: Establish KPIs, identify pilot project, and initiate change communications.</paragraph>\n\n                <paragraph><bold>6–12 Month Horizon</bold>: Scale deployments, refine governance, validate ROI, and expand use case portfolio.</paragraph>\n            "

/-- ConsolidatedReportGenerator._create_fallback_xml_report_with_enhanced_formatting
(lines 955-1142).  The full_report variable is assigned only inside the
`for i, uc in enumerate(use_cases, 1)` loop (line 1026 sits in the loop body), so
with an empty use-case list the function reaches `return full_report` with the
variable unbound and raises UnboundLocalError; this is modelled as `none`.
With a nonempty list the last iteration assembles the report from all accumulated
use-case sections.  The `citations` argument models the list prepared at line 974
(from _prepare_real_citations_from_web_scraping, whose web-scraping input is outside
the in-scope core), and `enhancement` models the string built at lines 963-971 from
research_data/custom_context, likewise external inputs. -/
def createFallbackXmlReport (profile : CompanyProfile) (ucs : List UseCaseStructured)
    (cits : List (Str × Str)) (enhancement : Str) : Option Str :=
  match ucs with
  | [] => none
  | _ :: _ =>
    some (fallbackReportHead profile cits ucs enhancement
      ++ joinSep [] (useCaseSections profile cits ucs)
      ++ fallbackReportTail profile cits ucs)

/-- Recursion core of the tag-form removal, with a step budget. -/
def removeTagFormsGo (tag : Str) : Nat → Str → Str
  | _, [] => []
  | 0, s => s
  | fuel + 1, c :: rest =>
    if isPreBy charCS ('<' :: tag ++ ['>']) (c :: rest) then
      removeTagFormsGo tag fuel (rest.drop (tag.length + 1))
    else if isPreBy charCS ('<' :: '/' :: tag ++ ['>']) (c :: rest) then
      removeTagFormsGo tag fuel (rest.drop (tag.length + 2))
    else c :: removeTagFormsGo tag fuel rest

/-- One scan of re.sub(r'</?tag>', '', s) (case-sensitive, lines 1388-1390):
both the opening and the closing form of the tag are removed. -/
def removeTagForms (tag : Str) (s : Str) : Str := removeTagFormsGo tag s.length s

/-- Attempted match of the citation-link pattern
link-open-quote ([^"]*) quote-u-bracket (\d+) bracket-close-u-close-link
at the start of `s` (the regex at line 1405): returns the href group and the digit
group.  The character class [^"]* stops exactly at the next quote, and \d+ is the
maximal digit run followed by the closing literal. -/
def tryLinkMatch (s : Str) : Option (Str × Str) :=
  if isPreBy charCS (str "<link href=\"") s then
    let r0 := s.drop 12
    let href := r0.takeWhile (fun c => c != '"')
    let r1 := r0.drop href.length
    if isPreBy charCS (str "\"><u>[") r1 then
      let r2 := r1.drop 6
      let ds := r2.takeWhile Char.isDigit
      if ds.isEmpty then none
      else if isPreBy charCS (str "]</u></link>") (r2.drop ds.length) then some (href, ds)
      else none
    else none
  else none

/-- The enhanced replacement built at line 1402; the citation info looked up at
lines 1398-1399 is not used by the replacement text. -/
def enhancedLinkText (href ds : Str) : Str :=
  str "<link href=\"" ++ href
    ++ str "\"><b><font face=\"Helvetica-Bold\" size=\"8\">&nbsp;[" ++ ds
    ++ str "]&nbsp;</font></b></link>"

/-- Recursion core of the citation-link substitution, with a step budget. -/
def enhanceLinksGo : Nat → Str → Str
  | _, [] => []
  | 0, s => s
  | fuel + 1, c :: rest =>
    match tryLinkMatch (c :: rest) with
    | some (href, ds) =>
      enhancedLinkText href ds
        ++ enhanceLinksGo fuel ((c :: rest).drop (12 + href.length + 6 + ds.length + 12))
    | none => c :: enhanceLinksGo fuel rest

/-- re.sub of the citation-link pattern over the whole text (line 1406): scan left to
right, replacing each match and resuming after it. -/
def enhanceLinks (s : Str) : Str := enhanceLinksGo s.length s

/-- re.sub(r'\s+', ' ', s): each maximal whitespace run becomes one space (line 1409);
the flag records whether the scan is inside a whitespace run. -/
def collapseWSGo : Bool → Str → Str
  | _, [] => []
  | inRun, c :: rest =>
    if isPySpace c then
      if inRun then collapseWSGo true rest else ' ' :: collapseWSGo true rest
    else c :: collapseWSGo false rest

/-- Whitespace-run collapse over a whole string. -/
def collapseWS (s : Str) : Str := collapseWSGo false s

/-- Word character of the regex \w (ASCII range). -/
def isWordChar (c : Char) : Bool := c.isAlphanum || c == '_'

/-- Does `s` start with a bracketed digit run \[(\d+)\]?  Returns the digits. -/
def tryBracketNum : Str → Option Str
  | '[' :: r =>
    let ds := r.takeWhile Char.isDigit
    if ds.isEmpty then none
    else if isPreBy charCS (str "]") (r.drop ds.length) then some ds
    else none
  | _ => none

/-- Recursion core of the word-then-bracket spacing substitution, with a step
budget. -/
def spaceBeforeCitGo : Nat → Str → Str
  | _, [] => []
  | 0, s => s
  | fuel + 1, c :: rest =>
    if isWordChar c then
      match tryBracketNum rest with
      | some ds =>
        c :: ' ' :: '[' :: (ds ++ (']' :: spaceBeforeCitGo fuel (rest.drop (ds.length + 2))))
      | none => c :: spaceBeforeCitGo fuel rest
    else c :: spaceBeforeCitGo fuel rest

/-- re.sub(r'(\w)\[(\d+)\]', r'\1 [\2]', s) (line 1412): insert a space between a word
character and an immediately following bracketed citation number. -/
def spaceBeforeCit (s : Str) : Str := spaceBeforeCitGo s.length s

/-- Recursion core of the bracket-then-word spacing substitution, with a step
budget. -/
def spaceAfterCitGo : Nat → Str → Str
  | _, [] => []
  | 0, s => s
  | fuel + 1, c :: rest =>
    match tryBracketNum (c :: rest) with
    | some ds =>
      match rest.drop (ds.length + 1) with
      | d :: rest2 =>
        if isWordChar d then
          '[' :: (ds ++ (']' :: ' ' :: d :: spaceAfterCitGo fuel rest2))
        else c :: spaceAfterCitGo fuel rest
      | [] => c :: spaceAfterCitGo fuel rest
    | none => c :: spaceAfterCitGo fuel rest

/-- re.sub(r'\[(\d+)\](\w)', r'[\1] \2', s) (line 1413): insert a space between a
bracketed citation number and an immediately following word character.  When the
bracket is not followed by a word character the scan advances one character, as the
regex engine does. -/
def spaceAfterCit (s : Str) : Str := spaceAfterCitGo s.length s

/-- ConsolidatedReportGenerator._enhance_inline_citations_for_pdf (lines 1384-1415).
The citations dict is accepted as in the source, but the replacement text never uses
the looked-up entry, so the argument is inert. -/
def enhanceInlineCitationsForPdf (content : Str)
    (_cits : List (Nat × CitationInfo)) : Str :=
  let c1 := removeTagForms (str "content") content
  let c2 := removeTagForms (str "paragraph") c1
  let c3 := removeTagForms (str "section") c2
  let c4 := enhanceLinks c3
  let c5 := strip (collapseWS c4)
  spaceAfterCit (spaceBeforeCit c5)

/-- Match of \d+\. at the start of `s` (greedy digit run then a literal dot):
the rest of the string after the dot. -/
def splitDigitsDot (s : Str) : Option Str :=
  let ds := s.takeWhile Char.isDigit
  if ds.isEmpty then none
  else if isPreBy charCS (str ".") (s.drop ds.length) then some (s.drop (ds.length + 1))
  else none

theorem splitDigitsDot_lt {s r : Str} (h : splitDigitsDot s = some r) :
    r.length < s.length := by
  unfold splitDigitsDot at h
  by_cases h1 : (s.takeWhile Char.isDigit).isEmpty
  · simp [h1] at h
  · simp only [h1, if_neg, ite_false, Bool.false_eq_true] at h
    by_cases h2 : isPreBy charCS (str ".") (s.drop (s.takeWhile Char.isDigit).length) = true
    · simp [h2] at h
      have hne : s ≠ [] := by
        intro he; rw [he] at h1; simp at h1
      have hlen : 1 ≤ s.length := by
        cases s with
        | nil => exact absurd rfl hne
        | cons a b => simp
      rw [← h]
      simp only [List.length_drop]
      omega
    · simp [h2] at h

/-- The lazy group of the numbered-item regex: characters up to the position where
\d+\. matches again or the string ends (the lookahead (?=\d+\.|$) at line 1353);
returns the group and the remaining text at the lookahead position. -/
def numGroup : Str → Str × Str
  | [] => ([], [])
  | c :: rest =>
    if (splitDigitsDot (c :: rest)).isSome then ([], c :: rest)
    else
      let r := numGroup rest
      (c :: r.1, r.2)

theorem numGroup_length_le : ∀ s : Str, (numGroup s).2.length ≤ s.length := by
  intro s
  induction s with
  | nil => simp [numGroup]
  | cons c rest ih =>
    rw [numGroup]
    by_cases h : (splitDigitsDot (c :: rest)).isSome = true
    · simp [h]
    · simp only [h, if_neg, ite_false, Bool.false_eq_true]
      simp only [List.length_cons]
      omega

/-- Recursion core of the numbered-item findall, with a step budget. -/
def findNumberedGo : Nat → Str → List Str
  | _, [] => []
  | 0, _ => []
  | fuel + 1, c :: rest =>
    match splitDigitsDot (c :: rest) with
    | none => findNumberedGo fuel rest
    | some r0 =>
      let r1 := r0.dropWhile isPySpace
      let g := numGroup r1
      g.1 :: findNumberedGo fuel g.2

/-- re.findall(r'\d+\.\s*(.*?)(?=\d+\.|$)', s, DOTALL) (line 1353): group texts of all
non-overlapping leftmost matches. -/
def findNumbered (s : Str) : List Str := findNumberedGo s.length s

/-- Typographic styles of the renderer (the ParagraphStyle table, lines 1223-1307). -/
inductive StyleK
  | titleStyle
  | mainHeading
  | subHeadingBold
  | subHeading
  | contentText
  | paragraphText
  | bulletText
deriving DecidableEq

/-- One flowable appended to the ReportLab story. -/
inductive StoryItem
  | para : StyleK → Str → StoryItem
  | spacer : Nat → Nat → StoryItem
  | hrule : Nat → StoryItem
deriving DecidableEq

/-- The flowables appended for one parsed section (lines 1322-1361): style dispatch on
the section type; list sections are split on the bullet glyph and additionally
scanned for leftover numbered fragments, each becoming a bulleted line. -/
def sectionStory (cits : List (Nat × CitationInfo)) (sec : Block) : List StoryItem :=
  if (strip sec.content).isEmpty then []
  else
    let cleaned := enhanceInlineCitationsForPdf sec.content cits
    let items :=
      if sec.type = str "heading_bold" then [StoryItem.para StyleK.mainHeading cleaned]
      else if sec.type = str "sub-heading-bold" then
        [StoryItem.para StyleK.subHeadingBold cleaned]
      else if sec.type = str "sub-heading" then [StoryItem.para StyleK.subHeading cleaned]
      else if sec.type = str "paragraph" then [StoryItem.para StyleK.paragraphText cleaned]
      else if sec.type = str "content" then [StoryItem.para StyleK.contentText cleaned]
      else if sec.type = str "list" then
        (((cleaned.splitOn '•').map strip).filter (fun i => !i.isEmpty)).map
          (fun i => StoryItem.para StyleK.bulletText (str "• " ++ i))
          ++ ((findNumbered cleaned).filter (fun i => !(strip i).isEmpty)).map
            (fun i => StoryItem.para StyleK.bulletText (str "• " ++ strip i))
      else [StoryItem.para StyleK.contentText cleaned]
    items ++ [StoryItem.spacer 1 8]

/-- The trailing citation index block (lines 1363-1379): each dict entry in insertion
order becomes "[n] <link href=url>url</link>"; the full name fetched at line 1373 is
not used in the rendered text. -/
def citationIndexItems (cits : List (Nat × CitationInfo)) : List StoryItem :=
  [StoryItem.spacer 1 20, StoryItem.hrule 1, StoryItem.spacer 1 15,
    StoryItem.para StyleK.subHeadingBold (str "Citation Sources"), StoryItem.spacer 1 10]
    ++ cits.flatMap (fun p =>
      [StoryItem.para StyleK.contentText
        ('[' :: (natStr p.1 ++ str "] <link href=\"" ++ p.2.url ++ str "\">" ++ p.2.url
          ++ str "</link>")),
        StoryItem.spacer 1 4])

/-- parsed_content.get('title', default) at line 1313: ParsedContent always carries the
title field (parse_xml_tags stores the key even when no heading is found, as ''), so
the dict lookup always succeeds and the supplied default is returned for no input. -/
def dictGetTitle (parsed : ParsedContent) (_default : Str) : Str := parsed.title

/-- The dict-get default at line 1313. -/
def defaultPdfTitle (companyName : Str) : Str :=
  str "GenAI Transformation Strategy for " ++ companyName

/-- ConsolidatedReportGenerator._create_professional_pdf_with_enhanced_formatting
(lines 1199-1382), modelled as the ordered list of flowables built into the story. -/
def buildStory (parsed : ParsedContent) (companyName : Str) : List StoryItem :=
  [StoryItem.para StyleK.titleStyle (dictGetTitle parsed (defaultPdfTitle companyName)),
    StoryItem.spacer 1 20, StoryItem.hrule 2, StoryItem.spacer 1 20]
    ++ parsed.sections.flatMap (sectionStory parsed.citations)
    ++ (if parsed.citations.isEmpty then [] else citationIndexItems parsed.citations)

/-- Validity test the source applies to a citation match (line 141): both trimmed
groups non-empty.  There is no check on the url scheme. -/
def validCit (m : Str × Str) : Bool := !(strip m.1).isEmpty && !(strip m.2).isEmpty

/-- The number of valid matches in a match list. -/
def validCount (ms : List (Str × Str)) : Nat := (ms.filter validCit).length

/-- Specification of the citation table produced by iterating processCitLoop over a
match list starting at counter `c`: one entry per valid match, numbered
consecutively in match order. -/
def numberMatches (c : Nat) : List (Str × Str) → List (Nat × CitationInfo)
  | [] => []
  | m :: ms =>
    if (strip m.1).isEmpty || (strip m.2).isEmpty then numberMatches c ms
    else (c, mkCitationInfo c (strip m.1) (strip m.2)) :: numberMatches (c + 1) ms

/-- The citation matches the parser iterates over for a raw document: the per-block
match lists of the offset-sorted blocks, concatenated in processing order.  An
occurrence sitting inside nested structural tags appears once per enclosing block. -/
def docCitMatches (raw : Str) : List (Str × Str) :=
  match dropToTag (strip raw) with
  | none => []
  | some s => ((sortedBlocks s).map (fun b => citMatches b.body)).flatten

/-- Follows the words of claims C2 and C3, not the source: an occurrence is counted
as valid only when the trimmed name is non-empty and the trimmed url starts with
"http".  Used to compare the claimed citation-validity rule with the code. -/
def claimHttpValidCount (raw : Str) : Nat :=
  ((citMatches raw).filter (fun m =>
    !(strip m.1).isEmpty && isPreBy charCS (str "http") (strip m.2))).length

/-- The closing forms of the structural markup vocabulary (spec section 6). -/
def structuralCloserList : List Str :=
  [str "</heading_bold>", str "</sub-heading-bold>", str "</sub-heading>",
    str "</content>", str "</section>", str "</paragraph>", str "</list>",
    str "</table>"]

/-- Follows the words of claim C5, not the source: incomplete-or-repetitive iff
length < 1000, or unique-line ratio < 0.7, or the text does not end with a
recognized closing structural tag (read as the structural vocabulary), or the final
portion of the text contains the truncation marker "...". -/
def claimIncompleteOrRepetitive (s : Str) : Bool :=
  decide (s.length < 1000)
    || decide (10 * (s.splitOn '\n').dedup.length < 7 * (s.splitOn '\n').length)
    || !(structuralCloserList.any (fun t => t.isSuffixOf s))
    || occursB (str "...") (lastN 1000 s)

/-- No occurrence of pattern `p` anywhere in `s` (exact comparison): no suffix of `s`
begins with `p`. -/
def NoMatchCS (p s : Str) : Prop := ∀ t : Str, t <:+ s → ¬ p <+: t

/-- Sample company record used to instantiate theorems with hypotheses. -/
def sampleProfile : CompanyProfile :=
  { name := str "Acme", industry := str "Retail", business_model := str "B2C"
    company_size := str "Mid", technology_stack := [str "AWS"]
    cloud_maturity := str "Medium", primary_challenges := [str "Scale"]
    growth_stage := str "Growth", compliance_requirements := [str "SOC2"] }

/-- Sample use-case record used to instantiate theorems with hypotheses. -/
def sampleUseCase : UseCaseStructured :=
  { title := str "Demand Forecasting", category := str "Analytics"
    current_state := str "Manual planning.", proposed_solution := str "Deploy ML forecasting."
    primary_aws_services := [str "SageMaker"], business_value := str "Better forecasts"
    implementation_phases := [str "Pilot", str "Scale"], timeline_months := 6
    monthly_cost_usd := 1000, complexity := str "Medium", priority := str "High"
    risk_level := str "Low", success_metrics := [str "Accuracy"] }

/-- Concrete input for the C5 counterexample: 1000 characters, a single line with
no dots, ending in the section closing tag. -/
def c5sectionEnd : Str := List.replicate 990 'a' ++ str "</section>"

/-- Concrete input for the C5 witness: 1200 characters ending in the truncation
marker. -/
def c5truncated : Str := List.replicate 1186 'a' ++ str "...(truncated)"

/-- Concrete raw text for the C2/C3 counterexamples: one citation pair with a
non-empty name and a non-http url. -/
def ftpCitationRaw : Str :=
  str "<content>x<citation_name>A</citation_name><citation_url>ftp://u</citation_url>y</content>"

/-- Concrete raw text for the C3 counterexample: a citation pair with an empty name
and an http url. -/
def emptyNameCitationRaw : Str :=
  str "<content>a<citation_name></citation_name><citation_url>http://u</citation_url>b</content>"

/-- Concrete raw text for the C8 counterexample: one valid named citation. -/
def gartnerRaw : Str :=
  str "<heading_bold>T</heading_bold><content><citation_name>Gartner</citation_name><citation_url>https://g.co</citation_url> x</content>"

/-! ### General lemmas about the string model -/

theorem isPreBy_charCS_iff : ∀ {p s : Str}, isPreBy charCS p s = true ↔ p <+: s := by
  intro p
  induction p with
  | nil => intro s; simp [isPreBy]
  | cons q qt ih =>
    intro s
    cases s with
    | nil => simp [isPreBy]
    | cons c ct =>
      simp only [isPreBy, Bool.and_eq_true, charCS, beq_iff_eq, List.cons_prefix_cons]
      exact and_congr Iff.rfl ih

theorem splitFirstCS_decomp {p : Str} :
    ∀ {s pre rest : Str}, splitFirstBy charCS p s = some (pre, rest) →
      s = pre ++ p ++ rest := by
  intro s
  induction s with
  | nil =>
    intro pre rest h
    rw [splitFirstBy] at h
    by_cases hp : isPreBy charCS p [] = true
    · have hpnil : p = [] := by
        have := isPreBy_charCS_iff.mp hp
        simpa using this
      simp [hp, hpnil] at h
      simp [h.1, h.2, hpnil]
    · simp [hp] at h
  | cons c ct ih =>
    intro pre rest h
    rw [splitFirstBy] at h
    by_cases hp : isPreBy charCS p (c :: ct) = true
    · obtain ⟨t, ht⟩ := isPreBy_charCS_iff.mp hp
      simp [hp] at h
      obtain ⟨h1, h2⟩ := h
      subst h1
      have hdrop : (c :: ct).drop p.length = t := by
        rw [← ht]; exact List.drop_left ..
      rw [← h2, hdrop]
      simp [← ht]
    · simp only [hp, if_neg, ite_false] at h
      match h1 : splitFirstBy charCS p ct with
      | none => rw [h1] at h; simp at h
      | some (pre', rest') =>
        rw [h1] at h
        simp only [Option.map_some'] at h
        injection h with h2
        injection h2 with hpre hrest
        subst hpre
        subst hrest
        have := ih h1
        simp [this]

theorem splitFirstBy_pos {eqc : Char → Char → Bool} {p s : Str}
    (h : isPreBy eqc p s = true) :
    splitFirstBy eqc p s = some ([], s.drop p.length) := by
  cases s with
  | nil =>
    have hp0 : p = [] := by
      have := isPreBy_length h
      simpa using this
    subst hp0
    simp [splitFirstBy, isPreBy]
  | cons c rest => simp [splitFirstBy, h]

theorem splitFirstBy_neg_cons {eqc : Char → Char → Bool} {p : Str} {c : Char} {rest : Str}
    (h : ¬ isPreBy eqc p (c :: rest) = true) :
    splitFirstBy eqc p (c :: rest)
      = (splitFirstBy eqc p rest).map (fun pr => (c :: pr.1, pr.2)) := by
  simp [splitFirstBy, h]

theorem splitFirstCS_isSome (p r : Str) :
    ∀ l : Str, (splitFirstBy charCS p (l ++ p ++ r)).isSome = true := by
  intro l
  induction l with
  | nil =>
    have hpre : isPreBy charCS p ([] ++ p ++ r) = true := by
      apply isPreBy_charCS_iff.mpr
      exact ⟨r, by simp⟩
    rw [splitFirstBy_pos hpre]
    simp
  | cons a l' ih =>
    by_cases hp : isPreBy charCS p ((a :: l') ++ p ++ r) = true
    · rw [splitFirstBy_pos hp]; simp
    · rw [List.cons_append, List.cons_append] at hp ⊢
      rw [splitFirstBy_neg_cons hp]
      cases hrec : splitFirstBy charCS p (l' ++ p ++ r) with
      | none => rw [hrec] at ih; simp at ih
      | some pr => simp

theorem occursB_iff {p s : Str} : occursB p s = true ↔ p <:+: s := by
  constructor
  · intro h
    unfold occursB at h
    match hs : splitFirstBy charCS p s with
    | none => rw [hs] at h; simp at h
    | some (pre, rest) =>
      exact ⟨pre, rest, (splitFirstCS_decomp hs).symm⟩
  · rintro ⟨l, r, hlr⟩
    unfold occursB
    rw [← hlr]
    exact splitFirstCS_isSome p r l

theorem occursB_of_suffix {p t s : Str} (hts : t <:+ s) (h : occursB p t = true) :
    occursB p s = true := by
  rw [occursB_iff] at h ⊢
  exact h.trans hts.isInfix

theorem lastN_suffix_lastN {m n : Nat} (h : m ≤ n) (s : Str) :
    lastN m s <:+ lastN n s := by
  unfold lastN
  have he : (s.drop (s.length - n)).drop ((s.length - m) - (s.length - n))
      = s.drop (s.length - m) := by
    rw [List.drop_drop]
    congr 1
    omega
  rw [← he]
  exact List.drop_suffix ..

theorem tagTail_append {s t : Str} (h : tagTail s = true) : tagTail (s ++ t) = true := by
  induction s with
  | nil => simp [tagTail] at h
  | cons c rest ih =>
    rw [List.cons_append, tagTail]
    rw [tagTail] at h
    by_cases hc : (c == '>') = true
    · simp [hc]
    · simp only [hc, if_neg, ite_false] at h ⊢
      exact ih h

theorem isTagAt_append {s t : Str} (h : isTagAt s = true) : isTagAt (s ++ t) = true := by
  cases s with
  | nil => simp [isTagAt] at h
  | cons a s1 =>
    cases s1 with
    | nil => simp [isTagAt] at h
    | cons b rest =>
      rw [isTagAt] at h
      rw [List.cons_append, List.cons_append, isTagAt]
      simp only [Bool.and_eq_true] at h ⊢
      exact ⟨h.1, tagTail_append h.2⟩

theorem dropToTag_eq_none :
    ∀ {s : Str}, dropToTag s = none ↔ ∀ t : Str, t <:+ s → isTagAt t = false := by
  intro s
  induction s with
  | nil =>
    simp only [dropToTag, true_iff]
    intro t ht
    have : t = [] := by simpa using ht
    subst this
    simp [isTagAt]
  | cons c rest ih =>
    rw [dropToTag]
    by_cases hc : isTagAt (c :: rest) = true
    · rw [if_pos hc]
      constructor
      · intro h; simp at h
      · intro h
        have hx := h (c :: rest) List.suffix_rfl
        rw [hc] at hx
        simp at hx
    · rw [if_neg hc]
      rw [ih]
      constructor
      · intro h t ht
        rcases List.suffix_cons_iff.mp ht with h1 | h1
        · rw [h1]
          simp only [Bool.not_eq_true] at hc
          exact hc
        · exact h t h1
      · intro h t ht
        exact h t (ht.trans (List.suffix_cons c rest))

theorem dropToTag_none_of_infix {s t : Str} (hinf : t <:+: s) (h : dropToTag s = none) :
    dropToTag t = none := by
  rw [dropToTag_eq_none] at h ⊢
  intro u hu
  by_cases htag : isTagAt u = true
  · obtain ⟨l, r, hlr⟩ := hinf
    obtain ⟨x, hx⟩ := hu
    have hsuf : u ++ r <:+ s := by
      refine ⟨l ++ x, ?_⟩
      rw [← hlr, ← hx]
      simp [List.append_assoc]
    have hfalse := h (u ++ r) hsuf
    rw [isTagAt_append htag] at hfalse
    simp at hfalse
  · simp only [Bool.not_eq_true] at htag
    exact htag

theorem strip_infix (s : Str) : strip s <:+: s := by
  unfold strip
  have h1 : s.dropWhile isPySpace <:+ s := List.dropWhile_suffix _
  have h2 : ((s.dropWhile isPySpace).reverse.dropWhile isPySpace).reverse
      <+: s.dropWhile isPySpace := by
    have h3 : (s.dropWhile isPySpace).reverse.dropWhile isPySpace
        <:+ (s.dropWhile isPySpace).reverse := List.dropWhile_suffix _
    have h4 := List.reverse_prefix.mpr h3
    rwa [List.reverse_reverse] at h4
  exact h2.isInfix.trans h1.isInfix

theorem splitOnP_go_no_sep {p : Char → Bool} :
    ∀ (l acc : Str), (∀ a ∈ l, p a = false) →
      List.splitOnP.go p l acc = [acc.reverse ++ l] := by
  intro l
  induction l with
  | nil => intro acc _; simp [List.splitOnP.go]
  | cons a t ih =>
    intro acc h
    rw [List.splitOnP.go]
    have ha : p a = false := h a (by simp)
    rw [ha]
    simp only [Bool.false_eq_true, if_false]
    rw [ih (a :: acc) (fun x hx => h x (by simp [hx]))]
    simp

/-- Splitting on a separator that does not occur returns the whole string. -/
theorem splitOn_no_sep {c : Char} {s : Str} (h : c ∉ s) : s.splitOn c = [s] := by
  unfold List.splitOn List.splitOnP
  rw [splitOnP_go_no_sep s [] ?hall]
  · simp
  · intro a ha
    cases hb : (a == c)
    · rfl
    · rw [beq_iff_eq] at hb
      subst hb
      exact absurd ha h

/-- The quality heuristic as a single boolean disjunction: the two trailing-window
tests collapse to the 1000-character window because the 500-character window is its
suffix. -/
theorem incomplete_orChain (s : Str) : isReportIncompleteOrRepetitive s
    = (decide (s.length < 1000)
      || (decide (0 < (s.splitOn '\n').length)
          && decide (10 * (s.splitOn '\n').dedup.length < 7 * (s.splitOn '\n').length))
      || (!(str "</paragraph>").isSuffixOf s && !(str "</content>").isSuffixOf s)
      || occursB (str "...") (lastN 1000 s)) := by
  have h500 : occursB (str "...") (lastN 500 s) = true →
      occursB (str "...") (lastN 1000 s) = true :=
    fun h => occursB_of_suffix (lastN_suffix_lastN (by omega) s) h
  have hor : (occursB (str "...") (lastN 500 s) || occursB (str "...") (lastN 1000 s))
      = occursB (str "...") (lastN 1000 s) := by
    cases hA : occursB (str "...") (lastN 500 s)
    · simp
    · simp [h500 hA]
  unfold isReportIncompleteOrRepetitive
  rw [hor]
  split_ifs with h1 h2 h3
  · simp [h1]
  · simp [h2]
  · simp [h3]
  · simp only [Bool.not_eq_true] at h2 h3
    simp [h1, h2, h3]

theorem validCit_eq (m : Str × Str) :
    validCit m = !((strip m.1).isEmpty || (strip m.2).isEmpty) := by
  rw [validCit, Bool.not_or]

theorem validCount_nil : validCount [] = 0 := rfl

theorem validCount_cons (m : Str × Str) (ms : List (Str × Str)) :
    validCount (m :: ms) = (if validCit m = true then 1 else 0) + validCount ms := by
  rw [validCount, validCount, List.filter_cons]
  split_ifs with h
  · simp only [List.length_cons]
    omega
  · simp

theorem validCount_append (a b : List (Str × Str)) :
    validCount (a ++ b) = validCount a + validCount b := by
  rw [validCount, validCount, validCount, List.filter_append, List.length_append]

theorem numberMatches_map_fst :
    ∀ (ms : List (Str × Str)) (c : Nat),
      (numberMatches c ms).map Prod.fst = List.range' c (validCount ms) := by
  intro ms
  induction ms with
  | nil => intro c; simp [numberMatches, validCount_nil]
  | cons m ms ih =>
    intro c
    rw [numberMatches, validCount_cons]
    by_cases hv : ((strip m.1).isEmpty || (strip m.2).isEmpty) = true
    · rw [if_pos hv]
      have : validCit m = false := by rw [validCit_eq, hv]; rfl
      rw [this]
      simp [ih]
    · rw [if_neg hv]
      have : validCit m = true := by
        rw [validCit_eq]
        simp only [Bool.not_eq_true] at hv
        rw [hv]
        rfl
      rw [this]
      simp only [if_pos]
      rw [List.map_cons, ih (c + 1), Nat.add_comm 1 (validCount ms)]
      rfl

theorem numberMatches_length (ms : List (Str × Str)) (c : Nat) :
    (numberMatches c ms).length = validCount ms := by
  have h := numberMatches_map_fst ms c
  have h2 := congrArg List.length h
  rwa [List.length_map, List.length_range'] at h2

theorem numberMatches_append :
    ∀ (ms1 ms2 : List (Str × Str)) (c : Nat),
      numberMatches c (ms1 ++ ms2)
        = numberMatches c ms1 ++ numberMatches (c + validCount ms1) ms2 := by
  intro ms1
  induction ms1 with
  | nil => intro ms2 c; simp [numberMatches, validCount_nil]
  | cons m ms ih =>
    intro ms2 c
    rw [List.cons_append, numberMatches, numberMatches, validCount_cons]
    by_cases hv : ((strip m.1).isEmpty || (strip m.2).isEmpty) = true
    · rw [if_pos hv, if_pos hv, ih]
      have : validCit m = false := by rw [validCit_eq, hv]; rfl
      rw [this]
      simp
    · rw [if_neg hv, if_neg hv, ih]
      have : validCit m = true := by
        rw [validCit_eq]
        simp only [Bool.not_eq_true] at hv
        rw [hv]
        rfl
      rw [this]
      simp only [if_pos, List.cons_append]
      have hidx : c + (1 + validCount ms) = c + 1 + validCount ms := by omega
      rw [hidx]

theorem processCitLoop_spec :
    ∀ (ms : List (Str × Str)) (txt : Str) (cits : List (Nat × CitationInfo))
      (inl : List CitationInfo) (ctr : Nat),
      (processCitLoop ms txt cits inl ctr).2.1 = cits ++ numberMatches ctr ms
      ∧ (processCitLoop ms txt cits inl ctr).2.2.2 = ctr + validCount ms := by
  intro ms
  induction ms with
  | nil =>
    intro txt cits inl ctr
    simp [processCitLoop, numberMatches, validCount_nil]
  | cons m ms ih =>
    intro txt cits inl ctr
    obtain ⟨g1, g2⟩ := m
    rw [processCitLoop, numberMatches, validCount_cons]
    by_cases hv : ((strip g1).isEmpty || (strip g2).isEmpty) = true
    · rw [if_pos hv, if_pos hv]
      have hvc : validCit (g1, g2) = false := by rw [validCit_eq, hv]; rfl
      rw [hvc]
      have := ih txt cits inl ctr
      simpa using this
    · rw [if_neg hv, if_neg hv]
      have hvc : validCit (g1, g2) = true := by
        rw [validCit_eq]
        simp only [Bool.not_eq_true] at hv
        rw [hv]
        rfl
      rw [hvc]
      have hrec := ih (replaceAll (citTagText (strip g1) (strip g2))
          (inlineCitText ctr (strip g2)) txt)
        (cits ++ [(ctr, mkCitationInfo ctr (strip g1) (strip g2))])
        (inl ++ [mkCitationInfo ctr (strip g1) (strip g2)]) (ctr + 1)
      constructor
      · rw [hrec.1]
        simp only [if_pos, List.append_assoc, List.singleton_append]
      · rw [hrec.2]
        simp only [if_pos]
        omega

theorem processBlocks_spec :
    ∀ (bs : List RawBlock) (cits : List (Nat × CitationInfo))
      (inl : List CitationInfo) (ctr : Nat),
      (processBlocks bs cits inl ctr).2.1
          = cits ++ numberMatches ctr ((bs.map (fun b => citMatches b.body)).flatten)
      ∧ (processBlocks bs cits inl ctr).2.2.2
          = ctr + validCount ((bs.map (fun b => citMatches b.body)).flatten) := by
  intro bs
  induction bs with
  | nil =>
    intro cits inl ctr
    simp [processBlocks, numberMatches, validCount_nil]
  | cons b bs ih =>
    intro cits inl ctr
    rw [processBlocks]
    simp only [List.map_cons, List.flatten_cons]
    have hloop := processCitLoop_spec (citMatches b.body) b.body cits inl ctr
    rw [processInlineCitations] at *
    have hrec := ih (processCitLoop (citMatches b.body) b.body cits inl ctr).2.1
      (processCitLoop (citMatches b.body) b.body cits inl ctr).2.2.1
      (processCitLoop (citMatches b.body) b.body cits inl ctr).2.2.2
    constructor
    · rw [hrec.1, hloop.1, hloop.2]
      rw [numberMatches_append, List.append_assoc]
    · rw [hrec.2, hloop.2]
      rw [validCount_append]
      omega

/-- The parser's citation table is exactly the consecutive numbering of the valid
matches among all per-block citation matches, starting at 1. -/
theorem parse_citations_eq (raw : Str) :
    (parse_xml_tags raw).citations = numberMatches 1 (docCitMatches raw) := by
  cases hd : dropToTag (strip raw) with
  | none => simp [parse_xml_tags, docCitMatches, hd, emptyParsed, numberMatches]
  | some s =>
    have h := (processBlocks_spec (sortedBlocks s) [] [] 1).1
    simp only [parse_xml_tags, docCitMatches, hd]
    simpa using h

/-! ### Lemmas about matching in clean contexts (no stray opening brackets) -/

theorem isPreBy_charCS_self (p r : Str) : isPreBy charCS p (p ++ r) = true :=
  isPreBy_charCS_iff.mpr ⟨r, rfl⟩

theorem isPreBy_charCS_head_ne {pt s : Str} {a : Char} (ha : a ≠ '<') :
    isPreBy charCS ('<' :: pt) (a :: s) = false := by
  rw [isPreBy]
  have : charCS '<' a = false := by
    rw [charCS, beq_eq_false_iff_ne]
    exact fun he => ha he.symm
  rw [this]
  rfl

theorem splitFirstCS_clean {pt : Str} :
    ∀ {A : Str} (r : Str), '<' ∉ A →
      splitFirstBy charCS ('<' :: pt) (A ++ (('<' :: pt) ++ r)) = some (A, r) := by
  intro A
  induction A with
  | nil =>
    intro r _
    rw [List.nil_append, splitFirstBy_pos (isPreBy_charCS_self _ r)]
    rw [List.drop_left]
  | cons a A' ih =>
    intro r hA
    have ha : a ≠ '<' := by
      intro he
      exact hA (by rw [he]; exact List.mem_cons_self _ _)
    have hA' : '<' ∉ A' := fun hm => hA (List.mem_cons_of_mem a hm)
    rw [List.cons_append]
    rw [splitFirstBy_neg_cons (by rw [isPreBy_charCS_head_ne ha]; exact Bool.false_ne_true)]
    rw [ih r hA']
    rfl

theorem splitFirstCS_none_clean {pt : Str} :
    ∀ {A : Str}, '<' ∉ A → splitFirstBy charCS ('<' :: pt) A = none := by
  intro A
  induction A with
  | nil => intro _; rfl
  | cons a A' ih =>
    intro hA
    have ha : a ≠ '<' := by
      intro he
      exact hA (by rw [he]; exact List.mem_cons_self _ _)
    have hA' : '<' ∉ A' := fun hm => hA (List.mem_cons_of_mem a hm)
    rw [splitFirstBy_neg_cons (by rw [isPreBy_charCS_head_ne ha]; exact Bool.false_ne_true)]
    rw [ih hA']
    rfl

theorem citMatchesGo_fuel :
    ∀ (fuel1 fuel2 : Nat) (s : Str), s.length < fuel1 → s.length < fuel2 →
      citMatchesGo fuel1 s = citMatchesGo fuel2 s := by
  intro fuel1
  induction fuel1 with
  | zero => intro fuel2 s h1 _; omega
  | succ f1 ih =>
    intro fuel2 s h1 h2
    cases fuel2 with
    | zero => omega
    | succ f2 =>
      rw [citMatchesGo, citMatchesGo]
      cases h0 : splitFirstBy charCS openNameTag s with
      | none => rfl
      | some pr0 =>
        obtain ⟨g0, r0⟩ := pr0
        simp only []
        cases hh1 : splitFirstBy charCS closeNameOpenUrlTag r0 with
        | none => rfl
        | some pr1 =>
          obtain ⟨g1, r1⟩ := pr1
          simp only []
          cases hh2 : splitFirstBy charCS closeUrlTag r1 with
          | none => rfl
          | some pr2 =>
            obtain ⟨g2, rest⟩ := pr2
            simp only []
            have e0 := splitFirstBy_length_eq h0
            have e1 := splitFirstBy_length_eq hh1
            have e2 := splitFirstBy_length_eq hh2
            have l0 := openNameTag_len
            have l1 := closeNameOpenUrlTag_len
            have l2 := closeUrlTag_len
            rw [ih f2 rest (by omega) (by omega)]

/-- Matching the citation pattern in a clean context: a block of the shape
junk-without-brackets, then a literal citation pair with bracket-free groups, then
a remainder, yields the pair as the first match and continues in the remainder. -/
theorem citMatches_clean_cons {A B name url : Str}
    (hA : '<' ∉ A) (hn : '<' ∉ name) (hu : '<' ∉ url) :
    citMatches (A ++ citTagText name url ++ B) = (name, url) :: citMatches B := by
  have hshape : A ++ citTagText name url ++ B
      = A ++ (openNameTag ++ (name ++ (closeNameOpenUrlTag
          ++ (url ++ (closeUrlTag ++ B))))) := by
    rw [citTagText]
    simp [List.append_assoc]
  have h0 : splitFirstBy charCS openNameTag (A ++ citTagText name url ++ B)
      = some (A, name ++ (closeNameOpenUrlTag ++ (url ++ (closeUrlTag ++ B)))) := by
    rw [hshape]
    have h := @splitFirstCS_clean (str "citation_name>")
      A (name ++ (closeNameOpenUrlTag ++ (url ++ (closeUrlTag ++ B)))) hA
    rw [show ('<' :: str "citation_name>") = openNameTag from rfl] at h
    exact h
  have h1 : splitFirstBy charCS closeNameOpenUrlTag
      (name ++ (closeNameOpenUrlTag ++ (url ++ (closeUrlTag ++ B))))
      = some (name, url ++ (closeUrlTag ++ B)) := by
    have h := @splitFirstCS_clean (str "/citation_name><citation_url>")
      name (url ++ (closeUrlTag ++ B)) hn
    rw [show ('<' :: str "/citation_name><citation_url>") = closeNameOpenUrlTag from rfl]
      at h
    exact h
  have h2 : splitFirstBy charCS closeUrlTag (url ++ (closeUrlTag ++ B))
      = some (url, B) := by
    have h := @splitFirstCS_clean (str "/citation_url>") url B hu
    rw [show ('<' :: str "/citation_url>") = closeUrlTag from rfl] at h
    exact h
  rw [citMatches, citMatchesGo]
  rw [h0]
  simp only []
  rw [h1]
  simp only []
  rw [h2]
  simp only []
  rw [citMatches]
  apply congrArg
  apply citMatchesGo_fuel
  · have e0 := splitFirstBy_length_eq h0
    have l0 := openNameTag_len
    have e1 := splitFirstBy_length_eq h1
    have l1 := closeNameOpenUrlTag_len
    have e2 := splitFirstBy_length_eq h2
    have l2 := closeUrlTag_len
    omega
  · omega

/-- A bracket-free text contains no citation matches. -/
theorem citMatches_clean_nil {B : Str} (hB : '<' ∉ B) : citMatches B = [] := by
  rw [citMatches]
  cases hf : B.length + 1 with
  | zero => omega
  | succ f =>
    rw [citMatchesGo]
    rw [show openNameTag = '<' :: str "citation_name>" from rfl]
    rw [splitFirstCS_none_clean hB]

theorem replaceAllGo_id_of_noMatch {p r : Str} :
    ∀ (fuel : Nat) (s : Str), NoMatchCS p s → replaceAllGo p r fuel s = s := by
  intro fuel
  induction fuel with
  | zero => intro s _; cases s <;> rfl
  | succ f ih =>
    intro s hs
    cases s with
    | nil => rfl
    | cons c rest =>
      rw [replaceAllGo]
      have hnp : ¬ isPreBy charCS p (c :: rest) = true := by
        intro hb
        exact hs (c :: rest) List.suffix_rfl (isPreBy_charCS_iff.mp hb)
      rw [if_neg hnp]
      rw [ih rest (fun t ht => hs t (ht.trans (List.suffix_cons c rest)))]

theorem replaceAll_id_of_noMatch {p r s : Str} (h : NoMatchCS p s) :
    replaceAll p r s = s := by
  rw [replaceAll]
  split_ifs with hp
  · rfl
  · exact replaceAllGo_id_of_noMatch s.length s h

theorem noMatch_of_pre {p1 p2 s : Str} (hp : p1 <+: p2) (h : NoMatchCS p1 s) :
    NoMatchCS p2 s :=
  fun t hts hpt => h t hts (hp.trans hpt)

theorem noMatch_clean {pt C : Str} (hC : '<' ∉ C) : NoMatchCS ('<' :: pt) C := by
  intro t hts hpt
  obtain ⟨u, hu⟩ := hpt
  have hmem : '<' ∈ t := by rw [← hu]; simp
  exact hC (hts.subset hmem)

theorem noMatch_cons {p s : Str} {c : Char} (h1 : ¬ p <+: (c :: s))
    (h2 : NoMatchCS p s) : NoMatchCS p (c :: s) := by
  intro t hts hpt
  rcases List.suffix_cons_iff.mp hts with h | h
  · rw [h] at hpt; exact h1 hpt
  · exact h2 t h hpt

theorem noMatch_append_clean {pt Y : Str} :
    ∀ {X : Str}, '<' ∉ X → NoMatchCS ('<' :: pt) Y → NoMatchCS ('<' :: pt) (X ++ Y) := by
  intro X
  induction X with
  | nil => intro _ hY; simpa using hY
  | cons a X' ih =>
    intro hX hY
    have ha : a ≠ '<' := fun he => hX (by rw [he]; exact List.mem_cons_self _ _)
    have hX' : '<' ∉ X' := fun hm => hX (List.mem_cons_of_mem a hm)
    rw [List.cons_append]
    apply noMatch_cons
    · rintro ⟨u, hu⟩
      rw [List.cons_append] at hu
      injection hu with h1 _
      exact ha h1.symm
    · exact ih hX' hY

theorem not_pre_of_head_ne {a b : Char} {s t : Str} (h : a ≠ b) :
    ¬ (a :: s) <+: (b :: t) := by
  rintro ⟨u, hu⟩
  rw [List.cons_append] at hu
  injection hu with h1 _
  exact h h1

theorem digitChar_ne_lt {d : Nat} (h : d < 10) : digitChar d ≠ '<' := by
  interval_cases d <;> decide

theorem lt_not_mem_natStrAux : ∀ (fuel n : Nat), '<' ∉ natStrAux fuel n := by
  intro fuel
  induction fuel with
  | zero => intro n; simp [natStrAux]
  | succ f ih =>
    intro n
    rw [natStrAux]
    split_ifs with h
    · intro hmem
      simp only [List.mem_singleton] at hmem
      exact digitChar_ne_lt h hmem.symm
    · intro hmem
      rcases List.mem_append.mp hmem with h1 | h1
      · exact ih (n / 10) h1
      · simp only [List.mem_singleton] at h1
        exact digitChar_ne_lt (by omega) h1.symm

theorem lt_not_mem_natStr (n : Nat) : '<' ∉ natStr n := lt_not_mem_natStrAux _ _

/-- No citation opening tag can match anywhere inside an inline citation replacement
followed by match-free text: every opening bracket in the replacement is followed by
a character other than 'c'. -/
theorem noMatch_marker {url rest : Str} (hu : '<' ∉ url) (n : Nat)
    (hrest : NoMatchCS openNameTag rest) :
    NoMatchCS openNameTag (inlineCitText n url ++ rest) := by
  have hop : openNameTag = '<' :: str "citation_name>" := rfl
  rw [inlineCitText]
  simp only [List.append_assoc]
  rw [show str "<link href=\"" = '<' :: str "link href=\"" from rfl, List.cons_append]
  rw [hop]
  apply noMatch_cons
  · intro hp
    rw [List.cons_prefix_cons] at hp
    have hp2 := hp.2
    rw [show str "link href=\"" = 'l' :: str "ink href=\"" from rfl,
      List.cons_append] at hp2
    exact not_pre_of_head_ne (by decide) hp2
  apply noMatch_append_clean (by decide)
  apply noMatch_append_clean hu
  rw [show str "\"><u>[" = str "\">" ++ ('<' :: str "u>[") from rfl, List.append_assoc]
  apply noMatch_append_clean (by decide)
  rw [List.cons_append]
  apply noMatch_cons
  · intro hp
    rw [List.cons_prefix_cons] at hp
    have hp2 := hp.2
    rw [show str "u>[" = 'u' :: str ">[" from rfl, List.cons_append] at hp2
    exact not_pre_of_head_ne (by decide) hp2
  apply noMatch_append_clean (by decide)
  apply noMatch_append_clean (lt_not_mem_natStr n)
  rw [show str "]</u></link>"
      = str "]" ++ ('<' :: (str "/u>" ++ ('<' :: str "/link>"))) from rfl,
    List.append_assoc]
  apply noMatch_append_clean (by decide)
  rw [List.cons_append]
  apply noMatch_cons
  · intro hp
    rw [List.cons_prefix_cons] at hp
    have hp2 := hp.2
    rw [show str "/u>" = '/' :: str "u>" from rfl, List.cons_append] at hp2
    exact not_pre_of_head_ne (by decide) hp2
  rw [List.append_assoc]
  apply noMatch_append_clean (by decide)
  rw [List.cons_append]
  apply noMatch_cons
  · intro hp
    rw [List.cons_prefix_cons] at hp
    have hp2 := hp.2
    rw [show str "/link>" = '/' :: str "link>" from rfl, List.cons_append] at hp2
    exact not_pre_of_head_ne (by decide) hp2
  exact noMatch_append_clean (by decide) hrest

theorem replaceAllGo_clean {pt r : Str} :
    ∀ (A : Str) (fuel : Nat) (rest : Str), '<' ∉ A →
      (A ++ (('<' :: pt) ++ rest)).length ≤ fuel →
      replaceAllGo ('<' :: pt) r fuel (A ++ (('<' :: pt) ++ rest))
        = A ++ (r ++ replaceAllGo ('<' :: pt) r (fuel - A.length - 1) rest) := by
  intro A
  induction A with
  | nil =>
    intro fuel rest _ hlen
    rw [List.nil_append] at hlen ⊢
    cases fuel with
    | zero =>
      rw [List.length_append, List.length_cons] at hlen
      omega
    | succ f =>
      rw [show (('<' :: pt) ++ rest) = '<' :: (pt ++ rest) from rfl]
      rw [replaceAllGo]
      rw [if_pos (show isPreBy charCS ('<' :: pt) ('<' :: (pt ++ rest)) = true from
        isPreBy_charCS_self ('<' :: pt) rest)]
      rw [show ('<' :: (pt ++ rest)).drop ('<' :: pt).length
          = (pt ++ rest).drop pt.length from rfl]
      rw [List.drop_left]
      rfl
  | cons a A' ih =>
    intro fuel rest hA hlen
    have ha : a ≠ '<' := fun he => hA (by rw [he]; exact List.mem_cons_self _ _)
    have hA' : '<' ∉ A' := fun hm => hA (List.mem_cons_of_mem a hm)
    cases fuel with
    | zero =>
      rw [List.length_append, List.length_cons] at hlen
      omega
    | succ f =>
      rw [List.cons_append]
      rw [replaceAllGo]
      rw [if_neg (by rw [isPreBy_charCS_head_ne ha]; exact Bool.false_ne_true)]
      rw [ih f rest hA'
        (by simp only [List.cons_append, List.length_append, List.length_cons]
              at hlen ⊢
            omega)]
      rw [show f + 1 - (a :: A').length - 1 = f - A'.length - 1 from by
        simp only [List.length_cons]; omega]
      rfl

/-- str.replace over a block holding exactly two clean occurrences of the pattern
rewrites both of them in one call. -/
theorem replaceAll_two_pairs {pt r A B C : Str}
    (hA : '<' ∉ A) (hB : '<' ∉ B) (hC : '<' ∉ C) :
    replaceAll ('<' :: pt) r (A ++ (('<' :: pt) ++ (B ++ (('<' :: pt) ++ C))))
      = A ++ (r ++ (B ++ (r ++ C))) := by
  rw [replaceAll]
  rw [if_neg (by simp)]
  rw [replaceAllGo_clean A _ (B ++ (('<' :: pt) ++ C)) hA (Nat.le_refl _)]
  rw [replaceAllGo_clean B _ C hB (by
    simp only [List.length_append, List.length_cons]
    omega)]
  rw [replaceAllGo_id_of_noMatch _ C (noMatch_clean hC)]

/-! ### Claim theorems -/

/-- C1: every input string that contains no angle-bracket tag parses to the document
model with empty title, no sections and no citations; the model parser is a total
function, matching the source's no-exception contract. -/
theorem C1_no_tags_parses_empty (s : Str) (h : hasTag s = false) :
    parse_xml_tags s = emptyParsed := by
  have h0 : dropToTag (strip s) = none := by
    apply dropToTag_none_of_infix ( strip_infix s)
    unfold hasTag at h
    cases hd : dropToTag s with
    | none => rfl
    | some t => rw [hd] at h; simp at h
  simp [parse_xml_tags, h0]

/-- Witness for C1 at a concrete tagless input. -/
theorem C1_no_tags_parses_empty_witness :
    hasTag (str "plain prose, no markup at all.") = false ∧
      parse_xml_tags (str "plain prose, no markup at all.") = emptyParsed :=
  ⟨by decide, C1_no_tags_parses_empty _ (by decide)⟩

/-- C4: the three-block example parses to exactly Content "A", SubHeading "B",
Content "C" in source-offset order, demonstrating the merge-and-sort of the
independent per-tag scans. -/
theorem C4_ordering_preservation :
    (parse_xml_tags
        (str "<content>A</content><sub-heading>B</sub-heading><content>C</content>")).sections
      = [⟨str "content", str "A"⟩, ⟨str "sub-heading", str "B"⟩,
          ⟨str "content", str "C"⟩] := by
  decide

/-- Counterexample to C5 as stated: a 1000-character single-line text with no dots,
ending in the section closing tag.  The code classifies it incomplete (it only
accepts paragraph or content closers, line 777), while the claim's condition list
classifies it complete, so the claimed if-and-only-if fails. -/
theorem C5_counterexample :
    isReportIncompleteOrRepetitive c5sectionEnd = true
      ∧ claimIncompleteOrRepetitive c5sectionEnd = false := by
  have hlen : c5sectionEnd.length = 1000 := by
    have h10 : (str "</section>").length = 10 := by decide
    rw [c5sectionEnd, List.length_append, List.length_replicate, h10]
  have hsec : str "</section>" <:+ c5sectionEnd := ⟨List.replicate 990 'a', rfl⟩
  have hdot : '.' ∉ c5sectionEnd := by
    intro hmem
    rw [c5sectionEnd, List.mem_append, List.mem_replicate] at hmem
    rcases hmem with h | h
    · exact absurd h.2 (by decide)
    · exact absurd h (by decide)
  have hnl : '\n' ∉ c5sectionEnd := by
    intro hmem
    rw [c5sectionEnd, List.mem_append, List.mem_replicate] at hmem
    rcases hmem with h | h
    · exact absurd h.2 (by decide)
    · exact absurd h (by decide)
  have hpar : (str "</paragraph>").isSuffixOf c5sectionEnd = false := by
    cases hb : (str "</paragraph>").isSuffixOf c5sectionEnd
    · rfl
    · exfalso
      have hsfx := List.isSuffixOf_iff_suffix.mp hb
      rcases List.suffix_or_suffix_of_suffix hsfx hsec with h | h
      · exact absurd h (by decide)
      · exact absurd h (by decide)
  have hcon : (str "</content>").isSuffixOf c5sectionEnd = false := by
    cases hb : (str "</content>").isSuffixOf c5sectionEnd
    · rfl
    · exfalso
      have hsfx := List.isSuffixOf_iff_suffix.mp hb
      rcases List.suffix_or_suffix_of_suffix hsfx hsec with h | h
      · exact absurd h (by decide)
      · exact absurd h (by decide)
  have hsplit : c5sectionEnd.splitOn '\n' = [c5sectionEnd] := splitOn_no_sep hnl
  have hlast : lastN 1000 c5sectionEnd = c5sectionEnd := by
    unfold lastN
    rw [hlen]
    simp
  have hocc : occursB (str "...") (lastN 1000 c5sectionEnd) = false := by
    rw [hlast]
    cases hb : occursB (str "...") c5sectionEnd
    · rfl
    · exfalso
      have hinf := occursB_iff.mp hb
      exact absurd (hinf.subset (by decide)) hdot
  constructor
  · rw [incomplete_orChain c5sectionEnd, hpar, hcon]
    simp only [Bool.not_false, Bool.and_self, Bool.or_true, Bool.true_or]
  · unfold claimIncompleteOrRepetitive
    have hany : structuralCloserList.any (fun t => t.isSuffixOf c5sectionEnd) = true := by
      apply List.any_eq_true.mpr
      refine ⟨str "</section>", by decide, ?_⟩
      exact List.isSuffixOf_iff_suffix.mpr hsec
    have hded : ([c5sectionEnd] : List Str).dedup = [c5sectionEnd] := by
      rw [List.dedup_cons_of_not_mem (by simp), List.dedup_nil]
    rw [hany, hocc, hsplit, hlen, hded]
    simp only [List.length_singleton]
    decide

/-- C5 as amended: the heuristic is an if-and-only-if over the four conditions with
the closing-tag condition restricted to a paragraph or content closer and the
truncation window being the final 1000 characters; in particular every
1200-character text ending in "...(truncated)" is classified incomplete. -/
theorem C5_heuristic_characterization :
    (∀ s : Str, isReportIncompleteOrRepetitive s
        = (decide (s.length < 1000)
          || (decide (0 < (s.splitOn '\n').length)
              && decide (10 * (s.splitOn '\n').dedup.length < 7 * (s.splitOn '\n').length))
          || (!(str "</paragraph>").isSuffixOf s && !(str "</content>").isSuffixOf s)
          || occursB (str "...") (lastN 1000 s)))
    ∧ (∀ s : Str, s.length = 1200 → (str "...(truncated)").isSuffixOf s = true →
        isReportIncompleteOrRepetitive s = true) := by
  refine ⟨incomplete_orChain, ?_⟩
  intro s hlen hsfx
  rw [incomplete_orChain s]
  have hsuffix : str "...(truncated)" <:+ s := by
    rwa [List.isSuffixOf_iff_suffix] at hsfx
  have hlast : str "...(truncated)" <:+ lastN 1000 s := by
    obtain ⟨x, hx⟩ := hsuffix
    have hxlen : x.length + (str "...(truncated)").length = s.length := by
      rw [← hx]; simp
    have h14 : (str "...(truncated)").length = 14 := by decide
    rw [h14] at hxlen
    have hidx : s.length - 1000 = 200 := by omega
    unfold lastN
    rw [hidx]
    refine ⟨x.drop 200, ?_⟩
    rw [← hx]
    rw [List.drop_append_of_le_length (by omega)]
  have hocc : occursB (str "...") (lastN 1000 s) = true := by
    rw [occursB_iff]
    exact ((show str "..." <+: str "...(truncated)" by decide).isInfix).trans hlast.isInfix
  simp [hocc]

/-- Witness for the amended C5 at the concrete 1200-character truncated text. -/
theorem C5_heuristic_characterization_witness :
    c5truncated.length = 1200
      ∧ (str "...(truncated)").isSuffixOf c5truncated = true
      ∧ isReportIncompleteOrRepetitive c5truncated = true := by
  have hlen : c5truncated.length = 1200 := by
    have h14 : (str "...(truncated)").length = 14 := by decide
    rw [c5truncated, List.length_append, List.length_replicate, h14]
  have hsfx : (str "...(truncated)").isSuffixOf c5truncated = true :=
    List.isSuffixOf_iff_suffix.mpr ⟨List.replicate 1186 'a', rfl⟩
  exact ⟨hlen, hsfx, C5_heuristic_characterization.2 c5truncated hlen hsfx⟩

/-- C7 (a slip in the source): parse_xml_tags always stores the 'title' key, so the
renderer's dict-get default "GenAI Transformation Strategy for company" is dead code;
with a raw text carrying no heading the parsed title is empty and the story's title
paragraph is the empty string, not the synthesized default. -/
theorem C7_dead_default_title :
    (parse_xml_tags (str "<content>X</content>")).title = []
      ∧ (buildStory (parse_xml_tags (str "<content>X</content>")) (str "Acme")).head?
          = some (StoryItem.para StyleK.titleStyle [])
      ∧ ¬ defaultPdfTitle (str "Acme") = [] := by
  refine ⟨by decide, by decide, by decide⟩

/-- C10: with an empty use-case list the fallback generator reaches the return with
full_report unbound and raises (modelled as none); with any nonempty list it returns
a document. -/
theorem C10_fallback_empty_raises (profile : CompanyProfile) (cits : List (Str × Str))
    (enh : Str) (ucs : List UseCaseStructured) (h : ucs ≠ []) :
    createFallbackXmlReport profile [] cits enh = none
      ∧ (createFallbackXmlReport profile ucs cits enh).isSome = true := by
  refine ⟨rfl, ?_⟩
  cases ucs with
  | nil => exact absurd rfl h
  | cons a l => rfl

/-- Witness for C10 at concrete records. -/
theorem C10_fallback_empty_raises_witness :
    createFallbackXmlReport sampleProfile [] [] [] = none
      ∧ (createFallbackXmlReport sampleProfile [sampleUseCase] [] []).isSome = true :=
  C10_fallback_empty_raises sampleProfile [] [] [sampleUseCase] (by simp)

/-- Counterexample to C2 as stated: a raw text with one citation pair whose url is
"ftp://u" has zero http-valid occurrences in the claim's sense, yet the parser
creates one citation entry (the source never checks the url scheme, line 141). -/
theorem C2_counterexample :
    ¬ (parse_xml_tags ftpCitationRaw).citations.length
        = claimHttpValidCount ftpCitationRaw := by
  decide

/-- Counterexample to C3 as stated: a non-http (but non-empty) url still creates a
citation entry, and a pair with an empty name creates no entry but its literal tags
remain in the block text rather than being removed. -/
theorem C3_counterexample :
    (parse_xml_tags ftpCitationRaw).citations.length = 1
      ∧ (parse_xml_tags emptyNameCitationRaw).citations = []
      ∧ occursB (str "<citation_name>")
          ((parse_xml_tags emptyNameCitationRaw).sections.headD ⟨[], []⟩).content = true := by
  refine ⟨by decide, by decide, by decide⟩

/-- C2 as amended: for every raw text, the citation table has exactly one entry per
citation occurrence with non-empty trimmed name and non-empty trimmed url among the
per-block matches (the url scheme is not checked; occurrences duplicated across
nested blocks count once per block), numbered 1..K consecutively in first-appearance
order with no gaps, no renumbering, and no merging of duplicates. -/
theorem C2_citation_numbering (raw : Str) :
    (parse_xml_tags raw).citations = numberMatches 1 (docCitMatches raw)
      ∧ ((parse_xml_tags raw).citations).map Prod.fst
          = List.range' 1 (validCount (docCitMatches raw))
      ∧ ((parse_xml_tags raw).citations).length = validCount (docCitMatches raw) := by
  refine ⟨parse_citations_eq raw, ?_, ?_⟩
  · rw [parse_citations_eq raw]
    exact numberMatches_map_fst (docCitMatches raw) 1
  · rw [parse_citations_eq raw]
    exact numberMatches_length (docCitMatches raw) 1

/-- C8 as amended: for every parsed document with a nonempty citation table, the
story ends with the Citation Sources block, the table numbers are ascending
(1..K with no gaps), and each entry is rendered as a clickable link whose label is
the citation's url (not its full name). -/
theorem C8_citation_index_rendering (raw companyName : Str)
    (h : (parse_xml_tags raw).citations ≠ []) :
    (∃ front, buildStory (parse_xml_tags raw) companyName
        = front ++ citationIndexItems (parse_xml_tags raw).citations)
      ∧ ((parse_xml_tags raw).citations).map Prod.fst
          = List.range' 1 ((parse_xml_tags raw).citations.length)
      ∧ ∀ p ∈ (parse_xml_tags raw).citations,
          StoryItem.para StyleK.contentText
            ('[' :: (natStr p.1 ++ str "] <link href=\"" ++ p.2.url ++ str "\">"
              ++ p.2.url ++ str "</link>"))
            ∈ buildStory (parse_xml_tags raw) companyName := by
  have hne : (parse_xml_tags raw).citations.isEmpty = false := by
    cases hc : (parse_xml_tags raw).citations with
    | nil => exact absurd hc h
    | cons a l => rfl
  have hstory : buildStory (parse_xml_tags raw) companyName
      = ([StoryItem.para StyleK.titleStyle
            (dictGetTitle (parse_xml_tags raw) (defaultPdfTitle companyName)),
          StoryItem.spacer 1 20, StoryItem.hrule 2, StoryItem.spacer 1 20]
        ++ (parse_xml_tags raw).sections.flatMap (sectionStory (parse_xml_tags raw).citations))
        ++ citationIndexItems (parse_xml_tags raw).citations := by
    rw [buildStory, hne]
    simp only [Bool.false_eq_true, if_false, List.append_assoc]
  refine ⟨⟨_, hstory⟩, ?_, ?_⟩
  · rw [parse_citations_eq raw, numberMatches_map_fst, numberMatches_length]
  · intro p hp
    rw [hstory]
    apply List.mem_append_right
    rw [citationIndexItems]
    apply List.mem_append_right
    apply List.mem_flatMap.mpr
    exact ⟨p, hp, by simp⟩

/-- Witness for the amended C8 at the concrete one-citation document. -/
theorem C8_citation_index_rendering_witness :
    (parse_xml_tags gartnerRaw).citations ≠ []
      ∧ ((∃ front, buildStory (parse_xml_tags gartnerRaw) (str "Acme")
            = front ++ citationIndexItems (parse_xml_tags gartnerRaw).citations)
        ∧ ((parse_xml_tags gartnerRaw).citations).map Prod.fst
            = List.range' 1 ((parse_xml_tags gartnerRaw).citations.length)
        ∧ ∀ p ∈ (parse_xml_tags gartnerRaw).citations,
            StoryItem.para StyleK.contentText
              ('[' :: (natStr p.1 ++ str "] <link href=\"" ++ p.2.url ++ str "\">"
                ++ p.2.url ++ str "</link>"))
              ∈ buildStory (parse_xml_tags gartnerRaw) (str "Acme")) :=
  ⟨by decide, C8_citation_index_rendering gartnerRaw (str "Acme") (by decide)⟩

/-- Counterexample to C8 as stated: the citation index entry is a link labeled by the
url, not by the citation's full name; the full name does not occur in the rendered
entry at all. -/
theorem C8_counterexample :
    (parse_xml_tags gartnerRaw).citations.map (fun p => p.2.full_name) = [str "Gartner"]
      ∧ (buildStory (parse_xml_tags gartnerRaw) (str "Acme")).reverse.get? 1
          = some (StoryItem.para StyleK.contentText
              (str "[1] <link href=\"https://g.co\">https://g.co</link>"))
      ∧ occursB (str "Gartner")
          (str "[1] <link href=\"https://g.co\">https://g.co</link>") = false := by
  refine ⟨by decide, by decide, by decide⟩

/-- C3 as amended: a citation pair whose stripped name or stripped url is empty
creates zero citation-table entries and zero inline entries and leaves the counter
unchanged, but the occurrence is NOT removed: the block text is returned verbatim,
literal citation tags included (lines 141-142 `continue` without any replacement). -/
theorem C3_invalid_citation_left_in_text (A B name url : Str)
    (cits : List (Nat × CitationInfo)) (inl : List CitationInfo) (c : Nat)
    (hA : '<' ∉ A) (hB : '<' ∉ B) (hn : '<' ∉ name) (hu : '<' ∉ url)
    (hinv : ((strip name).isEmpty || (strip url).isEmpty) = true) :
    processInlineCitations (A ++ citTagText name url ++ B) cits inl c
      = (A ++ citTagText name url ++ B, cits, inl, c) := by
  rw [processInlineCitations]
  rw [citMatches_clean_cons hA hn hu, citMatches_clean_nil hB]
  simp only [processCitLoop]
  rw [if_pos hinv]

/-- Witness for the amended C3: a whitespace-only name in a clean context. -/
theorem C3_invalid_citation_left_in_text_witness :
    processInlineCitations
        (str "See " ++ citTagText (str " ") (str "https://x") ++ str ".") [] [] 1
      = (str "See " ++ citTagText (str " ") (str "https://x") ++ str ".", [], [], 1) :=
  C3_invalid_citation_left_in_text (str "See ") (str ".") (str " ") (str "https://x")
    [] [] 1 (by decide) (by decide) (by decide) (by decide) (by decide)

/-- C9: when the identical valid citation pair occurs twice in one block, the loop
registers two table entries with consecutive numbers c0 and c0+1, but the str.replace
at the first match already rewrites both textual occurrences, so both inline markers
carry the first number c0 and the entry numbered c0+1 is never referenced in the text. -/
theorem C9_duplicate_pair_single_replacement
    (c0 : Nat) (A B C name url : Str)
    (cits : List (Nat × CitationInfo)) (inl : List CitationInfo)
    (hA : '<' ∉ A) (hB : '<' ∉ B) (hC : '<' ∉ C)
    (hn : '<' ∉ name) (hu : '<' ∉ url)
    (hsn : strip name = name) (hsu : strip url = url)
    (hne : name.isEmpty = false) (hue : url.isEmpty = false) :
    processInlineCitations
        (A ++ citTagText name url ++ (B ++ citTagText name url ++ C)) cits inl c0
      = (A ++ (inlineCitText c0 url ++ (B ++ (inlineCitText c0 url ++ C))),
          cits ++ [(c0, mkCitationInfo c0 name url),
            (c0 + 1, mkCitationInfo (c0 + 1) name url)],
          inl ++ [mkCitationInfo c0 name url, mkCitationInfo (c0 + 1) name url],
          c0 + 2) := by
  have hpat : citTagText name url
      = '<' :: (str "citation_name>"
          ++ (name ++ (closeNameOpenUrlTag ++ (url ++ closeUrlTag)))) := by
    rw [citTagText, show openNameTag = '<' :: str "citation_name>" from rfl]
    simp only [List.cons_append, List.append_assoc]
  have hpre : openNameTag <+: citTagText name url :=
    ⟨name ++ (closeNameOpenUrlTag ++ (url ++ closeUrlTag)), by
      rw [citTagText]; simp only [List.append_assoc]⟩
  have hnm1 : NoMatchCS openNameTag
      (A ++ (inlineCitText c0 url ++ (B ++ (inlineCitText c0 url ++ C)))) :=
    noMatch_append_clean hA (noMatch_marker hu c0
      (noMatch_append_clean hB (noMatch_marker hu c0 (noMatch_clean hC))))
  have hrep1 : replaceAll (citTagText name url) (inlineCitText c0 url)
      (A ++ citTagText name url ++ (B ++ citTagText name url ++ C))
      = A ++ (inlineCitText c0 url ++ (B ++ (inlineCitText c0 url ++ C))) := by
    rw [hpat]
    simp only [List.append_assoc]
    exact replaceAll_two_pairs hA hB hC
  have hrep2 : replaceAll (citTagText name url) (inlineCitText (c0 + 1) url)
      (A ++ (inlineCitText c0 url ++ (B ++ (inlineCitText c0 url ++ C))))
      = A ++ (inlineCitText c0 url ++ (B ++ (inlineCitText c0 url ++ C))) :=
    replaceAll_id_of_noMatch (noMatch_of_pre hpre hnm1)
  rw [processInlineCitations]
  rw [citMatches_clean_cons hA hn hu, citMatches_clean_cons hB hn hu,
    citMatches_clean_nil hC]
  simp only [processCitLoop, hsn, hsu, hne, hue, Bool.or_self, Bool.false_eq_true,
    if_false, hrep1, hrep2]
  simp [List.append_assoc]

theorem infix_extend_right {x l : Str} (h : x <:+: l) (s : Str) : x <:+: l ++ s :=
  h.trans ⟨[], s, by simp⟩

theorem infix_left_close {x A : Str} : x <:+: A ++ x := ⟨A, [], by simp⟩

theorem enumFrom_length :
    ∀ (l : List UseCaseStructured) (i : Nat), (enumFrom i l).length = l.length := by
  intro l
  induction l with
  | nil => intro i; rfl
  | cons a t ih =>
    intro i
    rw [enumFrom, List.length_cons, List.length_cons, ih]

/-- C6: for every non-empty list of use-case records the fallback generator returns a
report that contains the join of exactly one rendered section per record (in order),
and each record's section contains that record's title and proposed-solution text
verbatim. -/
theorem C6_fallback_completeness (profile : CompanyProfile) (cits : List (Str × Str))
    (enh : Str) (ucs : List UseCaseStructured) (h : ucs ≠ []) :
    ∃ r, createFallbackXmlReport profile ucs cits enh = some r
      ∧ joinSep [] (useCaseSections profile cits ucs) <:+: r
      ∧ (useCaseSections profile cits ucs).length = ucs.length
      ∧ ∀ p ∈ enumFrom 1 ucs,
          useCaseSection profile cits p.1 p.2 ∈ useCaseSections profile cits ucs
            ∧ p.2.title <:+: useCaseSection profile cits p.1 p.2
            ∧ p.2.proposed_solution <:+: useCaseSection profile cits p.1 p.2 := by
  cases ucs with
  | nil => exact absurd rfl h
  | cons u0 ut =>
    refine ⟨_, rfl, ?_, ?_, ?_⟩
    · exact ⟨fallbackReportHead profile cits (u0 :: ut) enh,
        fallbackReportTail profile cits (u0 :: ut), rfl⟩
    · rw [useCaseSections, List.length_map, enumFrom_length]
    · intro p hp
      refine ⟨?_, ?_, ?_⟩
      · rw [useCaseSections]
        exact List.mem_map_of_mem _ hp
      · rw [useCaseSection]
        iterate 43 apply infix_extend_right
        exact infix_left_close
      · rw [useCaseSection]
        iterate 29 apply infix_extend_right
        exact infix_left_close

/-- Witness for C6 at the sample records. -/
theorem C6_fallback_completeness_witness :
    [sampleUseCase] ≠ ([] : List UseCaseStructured)
      ∧ ∃ r, createFallbackXmlReport sampleProfile [sampleUseCase] [] [] = some r
        ∧ joinSep [] (useCaseSections sampleProfile [] [sampleUseCase]) <:+: r
        ∧ (useCaseSections sampleProfile [] [sampleUseCase]).length
            = [sampleUseCase].length
        ∧ ∀ p ∈ enumFrom 1 [sampleUseCase],
            useCaseSection sampleProfile [] p.1 p.2
                ∈ useCaseSections sampleProfile [] [sampleUseCase]
              ∧ p.2.title <:+: useCaseSection sampleProfile [] p.1 p.2
              ∧ p.2.proposed_solution <:+: useCaseSection sampleProfile [] p.1 p.2 :=
  ⟨by simp, C6_fallback_completeness sampleProfile [] [] [sampleUseCase] (by simp)⟩

/-- Witness for C9 at a concrete duplicated pair. -/
theorem C9_duplicate_pair_single_replacement_witness :
    processInlineCitations
        (str "See " ++ citTagText (str "AWS") (str "https://a")
          ++ (str " and " ++ citTagText (str "AWS") (str "https://a") ++ str ".")) [] [] 1
      = (str "See " ++ (inlineCitText 1 (str "https://a")
            ++ (str " and " ++ (inlineCitText 1 (str "https://a") ++ str "."))),
          [(1, mkCitationInfo 1 (str "AWS") (str "https://a")),
            (2, mkCitationInfo 2 (str "AWS") (str "https://a"))],
          [mkCitationInfo 1 (str "AWS") (str "https://a"),
            mkCitationInfo 2 (str "AWS") (str "https://a")],
          3) :=
  C9_duplicate_pair_single_replacement 1 (str "See ") (str " and ") (str ".")
    (str "AWS") (str "https://a") [] []
    (by decide) (by decide) (by decide) (by decide) (by decide) rfl rfl rfl rfl

end ReportGen
